import Mathlib

/-!
# funButton — verification of the persistence / import-export layer and audio pipeline

Shallow embedding of the core of the `funButton` soundboard:

* the data model (`src/types.ts`): buttons, toys (collections), global state;
* the backup codec (`src/utils/storage.ts`): `exportAllData`, `importData`;
* the collection operations of `src/App.tsx`: `removeToy`, `syncAudio`;
* the audio post-processing of `src/utils/audio.ts`: `trimAndNormalize`,
  `audioBufferToWav`.

Modelling conventions:

* JavaScript strings are `String`; a missing / `null` / `undefined` field is
  `Option`-`none`.  The JS truthiness test on a string field (`x || d`) is
  explicit: the empty string counts as falsy.
* Audio samples are modelled as exact rationals `ℚ` (the comparisons and the
  copy/scale arithmetic of the source are carried out verbatim on them).
* Binary asset payloads (base64 audio/image data, object-URL minting) are not
  modelled; no property below depends on their contents, only on whether a
  button has a sound handle at all (`audioUrl`).
* Fresh identifier generation (`toy_${Date.now()}_${Math.random()…}`) is
  modelled by an explicit supply `fresh : ℕ → String`; the k-th identifier
  minted during one `importData` call is `fresh k`.
-/

namespace FunButton

/-! ## Data model (src/src/types.ts) -/

/-- `AppSettings` from `types.ts`.  The case color is kept as a raw string:
at the JS runtime both palette names and arbitrary color values flow through
this field.  `soundType`/`glowType` are optional selectors passed through
verbatim by every operation modelled here. -/
structure AppSettings where
  caseColor : String
  titleColor : Option String := none
  soundType : Option String := none
  glowType : Option String := none
deriving DecidableEq, Repr

/-- `KeyConfig` from `types.ts` (a button).  `audioUrl`/`imageUrl` are the
ephemeral resource handles (object URLs); absent or `null` is `none`. -/
structure KeyConfig where
  id : String
  text : String
  color : String
  audioUrl : Option String := none
  imageUrl : Option String := none
  textColor : Option String := none
deriving DecidableEq, Repr

/-- `ToyConfig` from `types.ts` (a collection of buttons). -/
structure ToyConfig where
  id : String
  name : String
  settings : AppSettings
  buttons : List KeyConfig
deriving DecidableEq, Repr

/-- `GlobalState` from `types.ts`. -/
structure GlobalState where
  toys : List ToyConfig
  activeToyId : String
deriving DecidableEq, Repr

/-- JS `a || b` on an optional string field: the empty string is falsy. -/
def jsOrS (v : Option String) (d : String) : String :=
  match v with
  | some s => if s = "" then d else s
  | none => d

/-- JS `btn.textColor || null`: an absent or empty string becomes `null`. -/
def jsOrNull (v : Option String) : Option String :=
  match v with
  | some s => if s = "" then none else some s
  | none => none

/-! ## Backup documents (src/src/utils/storage.ts)

The parsed JSON backup document.  `version` and `timestamp` are written by the
exporters but never read by `importData`, so they are not carried here.  The
base64 asset payload fields are abstracted away (see the header comment). -/

/-- A button object inside a backup document. -/
structure BtnDoc where
  id : String := ""
  text : Option String := none
  color : Option String := none
  textColor : Option String := none
deriving DecidableEq, Repr

/-- A toy object inside a backup document. -/
structure ToyDoc where
  id : String := ""
  name : Option String := none
  settings : Option AppSettings := none
  buttons : Option (List BtnDoc) := none
deriving DecidableEq, Repr

/-- The root of a parsed backup document.  A field that is absent from the
JSON (or `null`) is `none`. -/
structure BackupDoc where
  type : Option String := none
  toy : Option ToyDoc := none
  toys : Option (List ToyDoc) := none
  activeToyId : Option String := none
deriving DecidableEq, Repr

/-- `processToyForExport` restricted to a button's scalar fields
(`{ id, text, color, textColor }`; the base64 payloads are abstracted). -/
def exportBtn (b : KeyConfig) : BtnDoc :=
  { id := b.id, text := some b.text, color := some b.color,
    textColor := b.textColor }

/-- `processToyForExport`: the toy's scalar fields plus its exported buttons. -/
def exportToy (t : ToyConfig) : ToyDoc :=
  { id := t.id, name := some t.name, settings := some t.settings,
    buttons := some (t.buttons.map exportBtn) }

/-- `exportAllData`: wraps every toy plus the active id under the
`full_backup` tag. -/
def exportAllData (s : GlobalState) : BackupDoc :=
  { type := some "full_backup", toy := none,
    toys := some (s.toys.map exportToy),
    activeToyId := some s.activeToyId }

/-- `exportSingleToy`: a single toy under the `single_toy` tag. -/
def exportSingleToy (t : ToyConfig) : BackupDoc :=
  { type := some "single_toy", toy := some (exportToy t),
    toys := none, activeToyId := none }

/-- The `restoreToy` closure inside `importData`, acting on one button.
`idStr` is the freshly minted button id.  The object-URL minting from the
base64 payloads is abstracted (the restored handles play no role in any
property below). -/
def restoreBtn (idStr : String) (b : BtnDoc) : KeyConfig :=
  { id := idStr,
    text := jsOrS b.text "",
    color := jsOrS b.color "white",
    audioUrl := none,
    imageUrl := none,
    textColor := jsOrNull b.textColor }

/-- The `restoreToy` closure inside `importData`.  `c` is the counter of
fresh ids already consumed: the toy id is `fresh c`, the i-th button id is
`fresh (c + 1 + i)`. -/
def restoreToy (fresh : ℕ → String) (c : ℕ) (t : ToyDoc) : ToyConfig :=
  { id := fresh c,
    name := jsOrS t.name "Restored Toy",
    settings := t.settings.getD { caseColor := "yellow" },
    buttons := (t.buttons.getD []).mapIdx
      (fun i b => restoreBtn (fresh (c + 1 + i)) b) }

/-- Number of fresh ids one toy consumes (1 for the toy, 1 per button). -/
def toyIdCost (t : ToyDoc) : ℕ := 1 + (t.buttons.getD []).length

/-- Restores a list of toys left to right, threading the fresh-id counter. -/
def restoreToys (fresh : ℕ → String) (c : ℕ) : List ToyDoc → List ToyConfig
  | [] => []
  | t :: rest => restoreToy fresh c t :: restoreToys fresh (c + toyIdCost t) rest

/-- `data.activeToyId || restoredToys[0]?.id || 'toy_default'` — the JS
truthiness chain computing the active id on the full-backup branch. -/
def fullBackupActiveId (docActive : Option String) (restored : List ToyConfig) :
    String :=
  match docActive with
  | some s =>
    if s = "" then
      match restored.head? with
      | some t => if t.id = "" then "toy_default" else t.id
      | none => "toy_default"
    else s
  | none =>
    match restored.head? with
    | some t => if t.id = "" then "toy_default" else t.id
    | none => "toy_default"

/-- `importData` from `storage.ts`.  The `single_toy` branch fires when the
type tag is `single_toy` and a `toy` object is present; otherwise a present
`toys` array is restored as a full backup; otherwise the import throws
`Invalid backup file format` (the `FormatError`). -/
def importData (fresh : ℕ → String) (doc : BackupDoc)
    (currentToys : List ToyConfig) : Except String GlobalState :=
  match doc.type, doc.toy with
  | some "single_toy", some t =>
    let newToy := restoreToy fresh 0 t
    Except.ok { toys := currentToys ++ [newToy], activeToyId := newToy.id }
  | _, _ =>
    match doc.toys with
    | some ts =>
      let restoredToys := restoreToys fresh 0 ts
      Except.ok { toys := restoredToys,
                  activeToyId := fullBackupActiveId doc.activeToyId restoredToys }
    | none => Except.error "Invalid backup file format"

/-! ## removeToy (src/src/App.tsx, lines 381–388) -/

/-- `removeToy` from `App.tsx`.  Removing while only one toy remains is a
no-op; otherwise the toy is filtered out and, if it was active, the active id
moves to `newToys[0].id`.  Reading `.id` off an empty filtered list would be
a JS `TypeError`; that crash is `none` here (it cannot occur when toy ids are
distinct, which every theorem below assumes). -/
def removeToy (s : GlobalState) (tid : String) : Option GlobalState :=
  if s.toys.length ≤ 1 then some s
  else
    let newToys := s.toys.filter (fun t => t.id ≠ tid)
    if s.activeToyId = tid then
      match newToys.head? with
      | some t0 => some { toys := newToys, activeToyId := t0.id }
      | none => none
    else
      some { toys := newToys, activeToyId := s.activeToyId }

/-! ## Audio buffers (src/src/utils/audio.ts)

A Web-Audio `AudioBuffer`: a frame count (`length`), a sample rate and one
sample list per channel.  Samples are exact rationals. -/

/-- Model of a Web-Audio `AudioBuffer`. -/
structure AudioBuffer where
  sampleRate : ℕ
  length : ℕ
  channels : List (List ℚ)
deriving DecidableEq, Repr

/-- Well-formedness: every channel holds exactly `length` samples (guaranteed
by the Web-Audio API for real buffers). -/
def AudioBuffer.WF (b : AudioBuffer) : Prop :=
  ∀ ch ∈ b.channels, ch.length = b.length

instance (b : AudioBuffer) : Decidable b.WF := by
  unfold AudioBuffer.WF; infer_instance

/-- Index of the first element satisfying `p` (the source scans forward and
breaks at the first hit). -/
def firstIdx? (p : α → Bool) : List α → Option ℕ
  | [] => none
  | x :: xs => if p x then some 0 else (firstIdx? p xs).map (· + 1)

/-- Index of the last element satisfying `p` (the source scans backwards from
the end and stops at the first hit). -/
def lastIdx? (p : α → Bool) : List α → Option ℕ
  | [] => none
  | x :: xs =>
    match lastIdx? p xs with
    | some i => some (i + 1)
    | none => if p x then some 0 else none

/-- The `start` scan of `trimAndNormalize`: minimum over all channels of the
first above-threshold index, initialised to `buffer.length`. -/
def trimStart (b : AudioBuffer) (thr : ℚ) : ℕ :=
  b.channels.foldl
    (fun s ch =>
      match firstIdx? (fun x => |x| > thr) ch with
      | some i => min s i
      | none => s)
    b.length

/-- The `end` scan of `trimAndNormalize`: maximum over all channels of the
last above-threshold index, initialised to `0`. -/
def trimEnd (b : AudioBuffer) (thr : ℚ) : ℕ :=
  b.channels.foldl
    (fun e ch =>
      match lastIdx? (fun x => |x| > thr) ch with
      | some i => max e i
      | none => e)
    0

/-- `pad = Math.floor(buffer.sampleRate * 0.05)` — the 50 ms pad. -/
def trimPad (b : AudioBuffer) : ℕ := b.sampleRate * 5 / 100

/-- `start = Math.max(0, start - pad)` (truncated natural subtraction). -/
def trimS (b : AudioBuffer) (thr : ℚ) : ℕ := trimStart b thr - trimPad b

/-- `end = Math.min(buffer.length - 1, end + pad)`. -/
def trimE (b : AudioBuffer) (thr : ℚ) : ℕ :=
  min (b.length - 1) (trimEnd b thr + trimPad b)

/-- `newLength = end - start + 1`. -/
def trimLen (b : AudioBuffer) (thr : ℚ) : ℕ := trimE b thr - trimS b thr + 1

/-- The windowed copy of one channel: `channelData[c].subarray(s, s + len)`
written into a zero-initialised destination of `len` samples
(`destination.set(source)` leaves the remainder zero). -/
def windowChannel (s len : ℕ) (ch : List ℚ) : List ℚ :=
  (ch.drop s).take len ++ List.replicate (len - ((ch.drop s).take len).length) 0

/-- The peak scan of `trimAndNormalize`: maximum magnitude over every
channel's windowed region, initialised to `0`. -/
def windowPeak (s len : ℕ) (channels : List (List ℚ)) : ℚ :=
  channels.foldl
    (fun p ch => ((ch.drop s).take len).foldl (fun p x => max p |x|) p)
    0

/-- `trimAndNormalize` from `audio.ts` (default threshold `0.01`): scan for
the first/last above-threshold sample, return the input unchanged when
`start >= end`, otherwise copy the padded window into a new buffer and, when
`0 < peak < 0.95`, scale every sample by `0.95 / peak`. -/
def trimAndNormalize (b : AudioBuffer) (thr : ℚ := 1/100) : AudioBuffer :=
  if trimStart b thr ≥ trimEnd b thr then b
  else
    { sampleRate := b.sampleRate,
      length := trimLen b thr,
      channels :=
        if 0 < windowPeak (trimS b thr) (trimLen b thr) b.channels ∧
            windowPeak (trimS b thr) (trimLen b thr) b.channels < 95/100 then
          (b.channels.map (windowChannel (trimS b thr) (trimLen b thr))).map
            (List.map (fun x =>
              x * (95/100 / windowPeak (trimS b thr) (trimLen b thr) b.channels)))
        else b.channels.map (windowChannel (trimS b thr) (trimLen b thr)) }

/-- Spec-side predicate: some channel has an above-threshold sample at
index `i`. -/
def AboveAt (b : AudioBuffer) (thr : ℚ) (i : ℕ) : Prop :=
  ∃ ch ∈ b.channels, i < ch.length ∧ |ch.getD i 0| > thr

/-- Peak magnitude over a whole buffer (used to state the normalization
postcondition "the new peak is 0.95"). -/
def bufPeak (b : AudioBuffer) : ℚ :=
  b.channels.foldl (fun p ch => ch.foldl (fun p x => max p |x|) p) 0

/-! ## AssetCache sync (src/src/App.tsx, lines 130–154)

`audioBuffersRef` and `lastUrlsRef` are JS objects used as string-keyed maps;
they are association lists here.  `decode` stands for the
`fetch → arrayBuffer → decodeAudio` chain: `none` is a decode failure (the
`catch` branch).  Each fetch/decode attempt is counted so that "performs no
work" is a provable statement. -/

/-- Lookup in a string-keyed association list. -/
def mapLookup (m : List (String × β)) (k : String) : Option β :=
  (m.find? (fun p => p.1 = k)).map Prod.snd

/-- `m[k] = v`: replace the binding if the key exists, append otherwise. -/
def mapSet (m : List (String × β)) (k : String) (v : β) : List (String × β) :=
  if m.any (fun p => p.1 = k) then
    m.map (fun p => if p.1 = k then (k, v) else p)
  else m ++ [(k, v)]

/-- `delete m[k]`. -/
def mapErase (m : List (String × β)) (k : String) : List (String × β) :=
  m.filter (fun p => p.1 ≠ k)

/-- The mutable state `syncAudio` works on, plus a counter of fetch/decode
attempts performed so far. -/
structure SyncState where
  buffers : List (String × AudioBuffer)
  lastUrls : List (String × String)
  decodes : ℕ
deriving DecidableEq, Repr

/-- One iteration of the `syncAudio` loop for one button:

* a truthy `audioUrl` differing from the recorded last-synced url triggers a
  fetch/decode; on success both maps are updated, on failure (`catch`)
  nothing is;
* a truthy `audioUrl` equal to the recorded url does nothing;
* a falsy `audioUrl` deletes both entries. -/
def syncStep (decode : String → Option AudioBuffer) (st : SyncState)
    (btn : KeyConfig) : SyncState :=
  match btn.audioUrl with
  | some u =>
    if u = "" then
      { buffers := mapErase st.buffers btn.id,
        lastUrls := mapErase st.lastUrls btn.id,
        decodes := st.decodes }
    else if mapLookup st.lastUrls btn.id = some u then st
    else
      match decode u with
      | some buf =>
        { buffers := mapSet st.buffers btn.id buf,
          lastUrls := mapSet st.lastUrls btn.id u,
          decodes := st.decodes + 1 }
      | none => { st with decodes := st.decodes + 1 }
  | none =>
    { buffers := mapErase st.buffers btn.id,
      lastUrls := mapErase st.lastUrls btn.id,
      decodes := st.decodes }

/-- `syncAudio`: the loop over the current buttons. -/
def syncAudio (decode : String → Option AudioBuffer) (btns : List KeyConfig)
    (st : SyncState) : SyncState :=
  btns.foldl (syncStep decode) st

/-! ## WAV encoder (src/src/utils/audio.ts, `audioBufferToWav`)

The encoder fills a `DataView` over a zero-initialised `ArrayBuffer` by
writing at explicit byte offsets.  The byte array is a `List ℕ` of byte
values and each `setUintN` / `setInt16` / `writeString` call becomes a
`writeBytes` at the same offset. -/

/-- Truncation toward zero of a rational (the integer conversion JS applies
before storing into a 16-bit view). -/
def ratTrunc (q : ℚ) : ℤ :=
  if q < 0 then -⌊-q⌋ else ⌊q⌋

/-- `Math.max(-1, Math.min(1, sample))`. -/
def clampSample (x : ℚ) : ℚ := max (-1) (min 1 x)

/-- `clamped < 0 ? clamped * 0x8000 : clamped * 0x7FFF`, truncated to an
integer by the 16-bit store. -/
def quantize16 (x : ℚ) : ℤ :=
  let c := clampSample x
  ratTrunc (if c < 0 then c * 32768 else c * 32767)

/-- The two little-endian bytes of `setInt16` (two's complement). -/
def bytes16I (n : ℤ) : List ℕ :=
  [(n % 65536).toNat % 256, (n % 65536).toNat / 256]

/-- The two little-endian bytes of `setUint16`. -/
def bytes16 (n : ℕ) : List ℕ := [n % 256, n / 256 % 256]

/-- The four little-endian bytes of `setUint32`. -/
def bytes32 (n : ℕ) : List ℕ :=
  [n % 256, n / 256 % 256, n / 2 ^ 16 % 256, n / 2 ^ 24 % 256]

/-- The bytes of an ASCII string (`writeString`). -/
def strBytes (s : String) : List ℕ := s.toList.map Char.toNat

/-- Write `bs` into `buf` starting at byte offset `off`. -/
def writeBytes (buf : List ℕ) (off : ℕ) : List ℕ → List ℕ
  | [] => buf
  | v :: vs => writeBytes (buf.set off v) (off + 1) vs

/-- A sequence of `writeBytes` operations (offset, bytes), applied in order;
the header of `audioBufferToWav` is such a sequence. -/
def writeMany (buf : List ℕ) : List (ℕ × List ℕ) → List ℕ
  | [] => buf
  | (off, bs) :: rest => writeMany (writeBytes buf off bs) rest

/-- A write sequence is contiguous from `base`: each write starts exactly
where the previous one ended (the header writes of `audioBufferToWav` are
contiguous from offset 0). -/
def contiguousFrom (base : ℕ) : List (ℕ × List ℕ) → Prop
  | [] => True
  | (off, bs) :: rest => off = base ∧ contiguousFrom (base + bs.length) rest

/-- `audioBufferToWav` from `audio.ts`: a 44-byte RIFF/WAVE header followed
by the interleaved, clamped, 16-bit-quantized samples, all written at
explicit offsets into a zero-initialised buffer of the total size. -/
def audioBufferToWav (b : AudioBuffer) : List ℕ :=
  let numChannels := b.channels.length
  let blockAlign := numChannels * 2
  let byteRate := b.sampleRate * blockAlign
  let dataSize := b.length * blockAlign
  let totalSize := 44 + dataSize
  let buf0 := List.replicate totalSize 0
  let buf1 := writeBytes buf0 0 (strBytes "RIFF")
  let buf2 := writeBytes buf1 4 (bytes32 (totalSize - 8))
  let buf3 := writeBytes buf2 8 (strBytes "WAVE")
  let buf4 := writeBytes buf3 12 (strBytes "fmt ")
  let buf5 := writeBytes buf4 16 (bytes32 16)
  let buf6 := writeBytes buf5 20 (bytes16 1)
  let buf7 := writeBytes buf6 22 (bytes16 numChannels)
  let buf8 := writeBytes buf7 24 (bytes32 b.sampleRate)
  let buf9 := writeBytes buf8 28 (bytes32 byteRate)
  let buf10 := writeBytes buf9 32 (bytes16 blockAlign)
  let buf11 := writeBytes buf10 34 (bytes16 16)
  let buf12 := writeBytes buf11 36 (strBytes "data")
  let buf13 := writeBytes buf12 40 (bytes32 dataSize)
  (List.range b.length).foldl
    (fun buf i =>
      (List.range numChannels).foldl
        (fun buf c =>
          writeBytes buf (44 + i * blockAlign + c * 2)
            (bytes16I (quantize16 ((b.channels.getD c []).getD i 0))))
        buf)
    buf13

/-- The header of the produced file, as the claim describes it: RIFF/WAVE
chunk descriptors, PCM format tag 1, channel count, sample rate, byte rate,
block align, 16-bit depth, all multi-byte fields little-endian. -/
def wavHeader (numChannels sampleRate dataSize : ℕ) : List ℕ :=
  strBytes "RIFF" ++ bytes32 (36 + dataSize) ++ strBytes "WAVE" ++
  strBytes "fmt " ++ bytes32 16 ++ bytes16 1 ++ bytes16 numChannels ++
  bytes32 sampleRate ++ bytes32 (sampleRate * (numChannels * 2)) ++
  bytes16 (numChannels * 2) ++ bytes16 16 ++ strBytes "data" ++
  bytes32 dataSize

/-- The data section, as the claim describes it: frame by frame, channel by
channel, the two little-endian bytes of each clamped, quantized sample. -/
def wavData (b : AudioBuffer) : List ℕ :=
  (List.range b.length).flatMap
    (fun i =>
      (List.range b.channels.length).flatMap
        (fun c => bytes16I (quantize16 ((b.channels.getD c []).getD i 0))))

/-! ## Concrete fixtures (used by witnesses and counterexamples) -/

/-- A deterministic fresh-id supply for concrete runs. -/
def freshIds : ℕ → String := fun n => "fresh" ++ toString n

/-- Default-settings value, matching the import fallback `{ caseColor: 'yellow' }`. -/
def yellowSettings : AppSettings := { caseColor := "yellow" }

/-- Two pre-existing collections. -/
def twoToys : List ToyConfig :=
  [⟨"c1", "C1", yellowSettings, []⟩, ⟨"c2", "C2", yellowSettings, []⟩]

/-- A three-button collection to be exported/imported. -/
def toy3 : ToyConfig :=
  ⟨"tx", "My Toy", { caseColor := "blue" },
    [⟨"b1", "hi", "red", none, none, none⟩,
     ⟨"b2", "yo", "blue", none, none, none⟩,
     ⟨"b3", "z", "white", none, none, none⟩]⟩

/-- A full-backup document whose active id `"a"` is the (stale) id written in
the file. -/
def fullDocA : BackupDoc :=
  { type := some "full_backup",
    toys := some [{ id := "a", name := some "Toy A",
                    settings := none, buttons := some [] }],
    activeToyId := some "a" }

/-- A full-backup document with an empty `toys` array and an empty-string
active id. -/
def emptyToysDoc : BackupDoc :=
  { type := some "full_backup", toys := some [], activeToyId := some "" }

/-- A full-backup document with an empty `toys` array and a non-empty active
id. -/
def emptyToysDocAbc : BackupDoc :=
  { type := some "full_backup", toys := some [], activeToyId := some "abc" }

/-- A document carrying neither `toys` nor `toy`. -/
def noToysDoc : BackupDoc :=
  { type := some "full_backup", activeToyId := some "a" }

/-- A state whose single collection has the empty string as its name. -/
def emptyNameState : GlobalState :=
  ⟨[⟨"t1", "", yellowSettings, []⟩], "t1"⟩

/-- A mono buffer (rate 20, pad 1) whose only above-threshold sample sits at
index 7 of 15. -/
def spikeBuf : AudioBuffer :=
  ⟨20, 15, [[0, 0, 0, 0, 0, 0, 0, 1, 0, 0, 0, 0, 0, 0, 0]]⟩

/-- A mono buffer (rate 20, pad 1) with window peak `1/2 < 0.95`. -/
def quietBuf : AudioBuffer :=
  ⟨20, 10, [[0, 0, 0, 1/2, 0, 1/4, 0, 0, 0, 0]]⟩

/-- A mono buffer (rate 20, pad 1) with window peak `0.98 ≥ 0.95`. -/
def loudBuf : AudioBuffer :=
  ⟨20, 10, [[0, 0, 0, 98/100, 0, 1/4, 0, 0, 0, 0]]⟩

/-! ## Theorems: import / export (claims C1, C2, C5, C6, C10) -/

theorem jsOrS_of_ne (v : String) (d : String) (h : v ≠ "") :
    jsOrS (some v) d = v := by
  simp [jsOrS, h]

theorem jsOrNull_of_ne (v : Option String) (h : v ≠ some "") :
    jsOrNull v = v := by
  cases v with
  | none => rfl
  | some s =>
    have : s ≠ "" := fun hs => h (by rw [hs])
    simp [jsOrNull, this]

theorem restoreToy_id (fresh : ℕ → String) (c : ℕ) (t : ToyDoc) :
    (restoreToy fresh c t).id = fresh c := rfl

theorem restoreToy_buttons_length (fresh : ℕ → String) (c : ℕ) (t : ToyDoc) :
    (restoreToy fresh c t).buttons.length = (t.buttons.getD []).length := by
  simp [restoreToy]

/-- The single-toy branch of `importData`, fully evaluated. -/
theorem importData_single_eq (fresh : ℕ → String) (doc : BackupDoc)
    (cur : List ToyConfig) (t : ToyDoc)
    (htype : doc.type = some "single_toy") (htoy : doc.toy = some t) :
    importData fresh doc cur =
      Except.ok { toys := cur ++ [restoreToy fresh 0 t],
                  activeToyId := (restoreToy fresh 0 t).id } := by
  unfold importData
  rw [htype, htoy]; rfl

/-- The full-backup branch of `importData`, fully evaluated.  Any document
whose type tag is not `single_toy` (or that has no `toy` object) but that
carries a `toys` array takes this branch. -/
theorem importData_full_eq (fresh : ℕ → String) (doc : BackupDoc)
    (cur : List ToyConfig) (ts : List ToyDoc)
    (htype : doc.type = some "full_backup") (htoys : doc.toys = some ts) :
    importData fresh doc cur =
      Except.ok { toys := restoreToys fresh 0 ts,
                  activeToyId :=
                    fullBackupActiveId doc.activeToyId (restoreToys fresh 0 ts) } := by
  unfold importData
  rw [htype, htoys]; rfl

/-- C5: a document carrying neither a `toys` array nor a `toy` object makes
`importData` raise the `FormatError` (`Invalid backup file format`); being a
pure function of `currentToys`, the import produces no state at all on this
path, so the pre-import state is untouched. -/
theorem importData_missing_fields_error (fresh : ℕ → String) (doc : BackupDoc)
    (cur : List ToyConfig) (htoy : doc.toy = none) (htoys : doc.toys = none) :
    importData fresh doc cur = Except.error "Invalid backup file format" := by
  unfold importData
  rw [htoy, htoys]
  cases htype : doc.type with
  | none => rfl
  | some s =>
    rcases String.decEq s "single_toy" with h | h
    · split
      · rename_i heq; cases heq
      · rfl
    · subst h; rfl

/-- Witness for C5 at a concrete malformed document. -/
theorem importData_missing_fields_error_witness :
    noToysDoc.toy = none ∧ noToysDoc.toys = none ∧
    importData freshIds noToysDoc twoToys =
      Except.error "Invalid backup file format" :=
  ⟨rfl, rfl, importData_missing_fields_error freshIds noToysDoc twoToys rfl rfl⟩

/-- C6: single-collection import appends exactly one freshly-identified
collection after the untouched existing ones and makes it active. -/
theorem importData_single_toy_appends (fresh : ℕ → String) (doc : BackupDoc)
    (cur : List ToyConfig) (t : ToyDoc)
    (htype : doc.type = some "single_toy") (htoy : doc.toy = some t)
    (hfresh : fresh 0 ∉ cur.map ToyConfig.id) :
    importData fresh doc cur =
      Except.ok { toys := cur ++ [restoreToy fresh 0 t],
                  activeToyId := (restoreToy fresh 0 t).id } ∧
    (restoreToy fresh 0 t).id = fresh 0 ∧
    (restoreToy fresh 0 t).id ∉ cur.map ToyConfig.id ∧
    (cur ++ [restoreToy fresh 0 t]).length = cur.length + 1 ∧
    (restoreToy fresh 0 t).buttons.length = (t.buttons.getD []).length := by
  refine ⟨importData_single_eq fresh doc cur t htype htoy, rfl, ?_, by simp, ?_⟩
  · rw [restoreToy_id]; exact hfresh
  · exact restoreToy_buttons_length fresh 0 t

/-- Witness for C6: a 3-button single-collection backup imported into two
existing collections yields three collections with the fresh one active. -/
theorem importData_single_toy_appends_witness :
    (exportSingleToy toy3).type = some "single_toy" ∧
    (exportSingleToy toy3).toy = some (exportToy toy3) ∧
    freshIds 0 ∉ twoToys.map ToyConfig.id ∧
    (importData freshIds (exportSingleToy toy3) twoToys =
        Except.ok { toys := twoToys ++ [restoreToy freshIds 0 (exportToy toy3)],
                    activeToyId := (restoreToy freshIds 0 (exportToy toy3)).id } ∧
      (restoreToy freshIds 0 (exportToy toy3)).id = freshIds 0 ∧
      (restoreToy freshIds 0 (exportToy toy3)).id ∉ twoToys.map ToyConfig.id ∧
      (twoToys ++ [restoreToy freshIds 0 (exportToy toy3)]).length =
        twoToys.length + 1 ∧
      (restoreToy freshIds 0 (exportToy toy3)).buttons.length =
        ((exportToy toy3).buttons.getD []).length) := by
  refine ⟨rfl, rfl, by decide, ?_⟩
  exact importData_single_toy_appends freshIds (exportSingleToy toy3) twoToys
    (exportToy toy3) rfl rfl (by decide)

/-- C1: the full-backup branch of `importData` violates the active-collection
invariant.  Importing a full backup whose file-level `activeToyId` is `"a"`
regenerates every collection id (here `"fresh0"`) but keeps `"a"` as the
active id, so the returned active id refers to no collection in the returned
list. -/
theorem importData_full_active_id_dangling :
    importData freshIds fullDocA [] =
      Except.ok { toys := [{ id := "fresh0", name := "Toy A",
                             settings := yellowSettings, buttons := [] }],
                  activeToyId := "a" } ∧
    ("a" : String) ∉
      (([{ id := "fresh0", name := "Toy A", settings := yellowSettings,
           buttons := [] }] : List ToyConfig).map ToyConfig.id) := by
  constructor
  · rfl
  · decide

/-- C10 counterexample: importing a full backup with an empty `toys` array
and a *present but empty-string* `activeToyId` does not take the active id
from the document (as the claim states for a present field): the JS `||`
chain treats `""` as absent and falls back to `"toy_default"`. -/
theorem importData_empty_toys_counterexample :
    emptyToysDoc.activeToyId = some "" ∧
    importData freshIds emptyToysDoc [] =
      Except.ok { toys := [], activeToyId := "toy_default" } ∧
    ("toy_default" : String) ≠ "" := by
  refine ⟨rfl, rfl, by decide⟩

/-- C10 (amended): importing a full-backup document with an empty `toys`
array succeeds with zero collections; the active id is taken from the
document's `activeToyId` when that field is present and non-empty, and is the
fallback `"toy_default"` when the field is absent or the empty string. -/
theorem importData_empty_toys (fresh : ℕ → String) (doc : BackupDoc)
    (cur : List ToyConfig) (htype : doc.type = some "full_backup")
    (htoys : doc.toys = some []) :
    importData fresh doc cur =
      Except.ok { toys := [],
                  activeToyId :=
                    match doc.activeToyId with
                    | some s => if s = "" then "toy_default" else s
                    | none => "toy_default" } := by
  rw [importData_full_eq fresh doc cur [] htype htoys]
  cases hact : doc.activeToyId with
  | none => rfl
  | some s =>
    by_cases hs : s = "" <;> simp [restoreToys, fullBackupActiveId, hs]

/-- Witness for C10 at a concrete empty-backup document. -/
theorem importData_empty_toys_witness :
    emptyToysDocAbc.type = some "full_backup" ∧
    emptyToysDocAbc.toys = some [] ∧
    importData freshIds emptyToysDocAbc [] =
      Except.ok { toys := [],
                  activeToyId :=
                    match emptyToysDocAbc.activeToyId with
                    | some s => if s = "" then "toy_default" else s
                    | none => "toy_default" } :=
  ⟨rfl, rfl, importData_empty_toys freshIds emptyToysDocAbc [] rfl rfl⟩

theorem restoreBtn_exportBtn_text (i : String) (b : KeyConfig) :
    (restoreBtn i (exportBtn b)).text = b.text := by
  by_cases h : b.text = "" <;> simp [restoreBtn, exportBtn, jsOrS, h]

theorem restoreBtn_exportBtn_color (i : String) (b : KeyConfig)
    (h : b.color ≠ "") : (restoreBtn i (exportBtn b)).color = b.color := by
  simp [restoreBtn, exportBtn, jsOrS, h]

theorem restoreBtn_exportBtn_textColor (i : String) (b : KeyConfig)
    (h : b.textColor ≠ some "") :
    (restoreBtn i (exportBtn b)).textColor = b.textColor := by
  simpa [restoreBtn, exportBtn] using jsOrNull_of_ne b.textColor h

/-- Restoring the exported buttons of a collection reproduces every scalar
field and gives each button an id drawn from the supply `g`. -/
theorem restore_buttons_forall2 (P : String → Prop) :
    ∀ (btns : List KeyConfig) (g : ℕ → String), (∀ i, P (g i)) →
      (∀ b ∈ btns, b.color ≠ "") → (∀ b ∈ btns, b.textColor ≠ some "") →
      List.Forall₂ (fun rb ob => rb.text = ob.text ∧ rb.color = ob.color ∧
          rb.textColor = ob.textColor ∧ P rb.id)
        ((btns.map exportBtn).mapIdx (fun i b => restoreBtn (g i) b)) btns := by
  intro btns
  induction btns with
  | nil => intro g _ _ _; simp
  | cons b rest ih =>
    intro g hP hc htc
    rw [List.map_cons, List.mapIdx_cons]
    refine List.Forall₂.cons ⟨restoreBtn_exportBtn_text (g 0) b,
      restoreBtn_exportBtn_color (g 0) b (hc b (by simp)),
      restoreBtn_exportBtn_textColor (g 0) b (htc b (by simp)), hP 0⟩ ?_
    exact ih (fun i => g (i + 1)) (fun i => hP (i + 1))
      (fun x hx => hc x (by simp [hx])) (fun x hx => htc x (by simp [hx]))

/-- Restoring the exported collections reproduces every scalar field, the
button counts, and draws every minted id from the supply `fresh`. -/
theorem restoreToys_export_forall2 (P : String → Prop) (fresh : ℕ → String)
    (hP : ∀ k, P (fresh k)) :
    ∀ (toys : List ToyConfig) (c : ℕ),
      (∀ t ∈ toys, t.name ≠ "") →
      (∀ t ∈ toys, ∀ b ∈ t.buttons, b.color ≠ "") →
      (∀ t ∈ toys, ∀ b ∈ t.buttons, b.textColor ≠ some "") →
      List.Forall₂ (fun rt ot =>
          rt.name = ot.name ∧ rt.settings = ot.settings ∧
          rt.buttons.length = ot.buttons.length ∧ P rt.id ∧
          List.Forall₂ (fun rb ob => rb.text = ob.text ∧ rb.color = ob.color ∧
              rb.textColor = ob.textColor ∧ P rb.id) rt.buttons ot.buttons)
        (restoreToys fresh c (toys.map exportToy)) toys := by
  intro toys
  induction toys with
  | nil => intro c _ _ _; simp [restoreToys]
  | cons t rest ih =>
    intro c hn hc htc
    rw [List.map_cons]
    show List.Forall₂ _
      (restoreToy fresh c (exportToy t) ::
        restoreToys fresh (c + toyIdCost (exportToy t)) (rest.map exportToy))
      (t :: rest)
    have hbtns := restore_buttons_forall2 P t.buttons
      (fun i => fresh (c + 1 + i)) (fun i => hP (c + 1 + i))
      (hc t (by simp)) (htc t (by simp))
    refine List.Forall₂.cons ⟨?_, rfl, ?_, hP c, hbtns⟩
      (ih (c + toyIdCost (exportToy t)) (fun x hx => hn x (by simp [hx]))
        (fun x hx => hc x (by simp [hx])) (fun x hx => htc x (by simp [hx])))
    · exact jsOrS_of_ne t.name "Restored Toy" (hn t (by simp))
    · simp [restoreToy, exportToy]

/-- C2 counterexample: the round trip `import(exportAll(state), [])` does not
preserve the scalar fields of every state.  A collection named `""` comes
back named `"Restored Toy"` (the JS `||` default fires on the present-but-
empty name). -/
theorem export_import_roundtrip_counterexample :
    emptyNameState.toys.map ToyConfig.name = [""] ∧
    importData freshIds (exportAllData emptyNameState) [] =
      Except.ok { toys := [{ id := "fresh0", name := "Restored Toy",
                             settings := yellowSettings, buttons := [] }],
                  activeToyId := "t1" } ∧
    ("Restored Toy" : String) ≠ "" := by
  refine ⟨rfl, rfl, by decide⟩

/-- C2 (amended): for every state whose collection names are non-empty, whose
button colors are non-empty and whose text-color overrides are never the
empty string, `import(exportAll(state), [])` yields a state with the same
number of collections, the same number of buttons per collection, the same
scalar fields (name, settings, button text, color, text color), and every
collection and button id distinct from all original collection and button ids
(given a fresh-id supply that avoids them, as the minting scheme guarantees). -/
theorem export_import_roundtrip (fresh : ℕ → String) (st : GlobalState)
    (hname : ∀ t ∈ st.toys, t.name ≠ "")
    (hcolor : ∀ t ∈ st.toys, ∀ b ∈ t.buttons, b.color ≠ "")
    (htc : ∀ t ∈ st.toys, ∀ b ∈ t.buttons, b.textColor ≠ some "")
    (hfresh : ∀ k, fresh k ∉ st.toys.map ToyConfig.id ∧
        fresh k ∉ st.toys.flatMap (fun t => t.buttons.map KeyConfig.id)) :
    ∃ r, importData fresh (exportAllData st) [] = Except.ok r ∧
      r.toys.length = st.toys.length ∧
      List.Forall₂ (fun rt ot =>
          rt.name = ot.name ∧ rt.settings = ot.settings ∧
          rt.buttons.length = ot.buttons.length ∧
          (rt.id ∉ st.toys.map ToyConfig.id ∧
            rt.id ∉ st.toys.flatMap (fun t => t.buttons.map KeyConfig.id)) ∧
          List.Forall₂ (fun rb ob => rb.text = ob.text ∧ rb.color = ob.color ∧
              rb.textColor = ob.textColor ∧
              (rb.id ∉ st.toys.map ToyConfig.id ∧
                rb.id ∉ st.toys.flatMap (fun t => t.buttons.map KeyConfig.id)))
            rt.buttons ot.buttons)
        r.toys st.toys := by
  have h2 := restoreToys_export_forall2
    (fun s => s ∉ st.toys.map ToyConfig.id ∧
      s ∉ st.toys.flatMap (fun t => t.buttons.map KeyConfig.id))
    fresh hfresh st.toys 0 hname hcolor htc
  exact ⟨_, importData_full_eq fresh (exportAllData st) [] (st.toys.map exportToy)
      rfl rfl, h2.length_eq, h2⟩

/-- Witness for C2 on a one-collection, three-button state. -/
theorem export_import_roundtrip_witness :
    (∀ t ∈ (⟨[toy3], "tx"⟩ : GlobalState).toys, t.name ≠ "") ∧
    (∀ k : ℕ, (fun _ : ℕ => "new") k ∉
        (⟨[toy3], "tx"⟩ : GlobalState).toys.map ToyConfig.id ∧
      (fun _ : ℕ => "new") k ∉
        (⟨[toy3], "tx"⟩ : GlobalState).toys.flatMap
          (fun t => t.buttons.map KeyConfig.id)) ∧
    (∃ r, importData (fun _ : ℕ => "new") (exportAllData ⟨[toy3], "tx"⟩) [] =
        Except.ok r ∧
      r.toys.length = (⟨[toy3], "tx"⟩ : GlobalState).toys.length ∧
      List.Forall₂ (fun rt ot =>
          rt.name = ot.name ∧ rt.settings = ot.settings ∧
          rt.buttons.length = ot.buttons.length ∧
          (rt.id ∉ (⟨[toy3], "tx"⟩ : GlobalState).toys.map ToyConfig.id ∧
            rt.id ∉ (⟨[toy3], "tx"⟩ : GlobalState).toys.flatMap
              (fun t => t.buttons.map KeyConfig.id)) ∧
          List.Forall₂ (fun rb ob => rb.text = ob.text ∧ rb.color = ob.color ∧
              rb.textColor = ob.textColor ∧
              (rb.id ∉ (⟨[toy3], "tx"⟩ : GlobalState).toys.map ToyConfig.id ∧
                rb.id ∉ (⟨[toy3], "tx"⟩ : GlobalState).toys.flatMap
                  (fun t => t.buttons.map KeyConfig.id)))
            rt.buttons ot.buttons)
        r.toys (⟨[toy3], "tx"⟩ : GlobalState).toys) := by
  have hnew1 : ("new" : String) ∉
      (⟨[toy3], "tx"⟩ : GlobalState).toys.map ToyConfig.id := by decide
  have hnew2 : ("new" : String) ∉
      (⟨[toy3], "tx"⟩ : GlobalState).toys.flatMap
        (fun t => t.buttons.map KeyConfig.id) := by decide
  exact ⟨by decide, fun _ => ⟨hnew1, hnew2⟩,
    export_import_roundtrip (fun _ : ℕ => "new") ⟨[toy3], "tx"⟩ (by decide)
      (by decide) (by decide) (fun _ => ⟨hnew1, hnew2⟩)⟩

/-! ## Theorems: removeToy (claim C7) -/

/-- C7: `removeToy` preserves the GlobalState invariants.  With distinct toy
ids and a resolving active id: removing when only one collection remains is
rejected with the state unchanged; otherwise the result exists, keeps the
collection list non-empty, keeps the active id pointing at an existing
collection, and — when the active collection itself is removed — reassigns
the active id to the first remaining collection. -/
theorem removeToy_preserves_invariants (s : GlobalState) (tid : String)
    (hnodup : (s.toys.map ToyConfig.id).Nodup)
    (hactive : s.activeToyId ∈ s.toys.map ToyConfig.id) :
    (s.toys.length ≤ 1 → removeToy s tid = some s) ∧
    ∃ s', removeToy s tid = some s' ∧
      s'.toys ≠ [] ∧
      s'.activeToyId ∈ s'.toys.map ToyConfig.id ∧
      (2 ≤ s.toys.length → s.activeToyId = tid →
        ∃ t0 rest, s.toys.filter (fun t => t.id ≠ tid) = t0 :: rest ∧
          s'.toys = t0 :: rest ∧ s'.activeToyId = t0.id) := by
  have htoys_ne : s.toys ≠ [] := by
    intro h; rw [h] at hactive; simp at hactive
  by_cases hlen : s.toys.length ≤ 1
  · have hrem : removeToy s tid = some s := by
      unfold removeToy; rw [if_pos hlen]
    refine ⟨fun _ => hrem, s, hrem, htoys_ne, hactive, fun h2 _ => absurd h2 (by omega)⟩
  · by_cases hact : s.activeToyId = tid
    · -- removing the active collection while others remain
      have hex : ∃ x ∈ s.toys, x.id ≠ tid := by
        by_contra hall
        push_neg at hall
        obtain ⟨a, b, l, habl⟩ : ∃ a b l, s.toys = a :: b :: l := by
          rcases ht : s.toys with _ | ⟨a, _ | ⟨b, l⟩⟩
          · rw [ht] at hlen; simp at hlen
          · rw [ht] at hlen; simp at hlen
          · exact ⟨a, b, l, rfl⟩
        have ha := hall a (by rw [habl]; exact List.mem_cons_self a _)
        have hb := hall b (by rw [habl]; exact List.mem_cons_of_mem a (List.mem_cons_self b _))
        rw [habl] at hnodup
        simp at hnodup
        exact hnodup.1.1 (ha.trans hb.symm)
      obtain ⟨x, hx, hxid⟩ := hex
      have hxmem : x ∈ s.toys.filter (fun t => t.id ≠ tid) :=
        List.mem_filter.mpr ⟨hx, by simpa using hxid⟩
      obtain ⟨t0, rest, hfil⟩ : ∃ t0 rest,
          s.toys.filter (fun t => t.id ≠ tid) = t0 :: rest := by
        rcases hf : s.toys.filter (fun t => t.id ≠ tid) with _ | ⟨t0, rest⟩
        · rw [hf] at hxmem; simp at hxmem
        · exact ⟨t0, rest, hf⟩
      have hrem : removeToy s tid = some ⟨t0 :: rest, t0.id⟩ := by
        unfold removeToy
        rw [if_neg hlen]
        simp only [hfil, if_pos hact, List.head?_cons]
      exact ⟨fun h => absurd h hlen, ⟨t0 :: rest, t0.id⟩, hrem, by simp,
        by simp, fun _ _ => ⟨t0, rest, hfil, rfl, rfl⟩⟩
    · -- removing a non-active collection (or a non-existent id)
      obtain ⟨ta, hta, htaid⟩ : ∃ t ∈ s.toys, t.id = s.activeToyId := by
        obtain ⟨t, ht, hid⟩ := List.mem_map.mp hactive
        exact ⟨t, ht, hid⟩
      have htamem : ta ∈ s.toys.filter (fun t => t.id ≠ tid) :=
        List.mem_filter.mpr ⟨hta, by simpa [htaid] using hact⟩
      have hrem : removeToy s tid =
          some ⟨s.toys.filter (fun t => t.id ≠ tid), s.activeToyId⟩ := by
        unfold removeToy
        rw [if_neg hlen]
        simp only [if_neg hact]
      refine ⟨fun h => absurd h hlen,
        ⟨s.toys.filter (fun t => t.id ≠ tid), s.activeToyId⟩, hrem,
        List.ne_nil_of_mem htamem, ?_, fun _ h => absurd h hact⟩
      exact List.mem_map.mpr ⟨ta, htamem, htaid⟩

/-- Witness for C7: a two-collection state with the active one removed. -/
theorem removeToy_preserves_invariants_witness :
    ((⟨twoToys, "c1"⟩ : GlobalState).toys.map ToyConfig.id).Nodup ∧
    (⟨twoToys, "c1"⟩ : GlobalState).activeToyId ∈
      (⟨twoToys, "c1"⟩ : GlobalState).toys.map ToyConfig.id ∧
    (((⟨twoToys, "c1"⟩ : GlobalState).toys.length ≤ 1 →
        removeToy ⟨twoToys, "c1"⟩ "c1" = some ⟨twoToys, "c1"⟩) ∧
      ∃ s', removeToy ⟨twoToys, "c1"⟩ "c1" = some s' ∧
        s'.toys ≠ [] ∧
        s'.activeToyId ∈ s'.toys.map ToyConfig.id ∧
        (2 ≤ (⟨twoToys, "c1"⟩ : GlobalState).toys.length →
          (⟨twoToys, "c1"⟩ : GlobalState).activeToyId = "c1" →
          ∃ t0 rest, (⟨twoToys, "c1"⟩ : GlobalState).toys.filter
              (fun t => t.id ≠ "c1") = t0 :: rest ∧
            s'.toys = t0 :: rest ∧ s'.activeToyId = t0.id)) :=
  ⟨by decide, by decide,
    removeToy_preserves_invariants ⟨twoToys, "c1"⟩ "c1" (by decide) (by decide)⟩

/-! ## Theorems: AssetCache sync (claim C9) -/

theorem find?_eq_none_of_lookup_none (m : List (String × β)) (k : String)
    (h : mapLookup m k = none) : m.find? (fun p => p.1 = k) = none := by
  unfold mapLookup at h
  cases hfind : m.find? (fun p => p.1 = k) with
  | none => rfl
  | some q => rw [hfind] at h; simp at h

theorem mapErase_of_lookup_none (m : List (String × β)) (k : String)
    (h : mapLookup m k = none) : mapErase m k = m := by
  unfold mapErase
  apply List.filter_eq_self.mpr
  intro p hp
  have hf := List.find?_eq_none.mp (find?_eq_none_of_lookup_none m k h) p hp
  simpa using hf

/-- One sync step is the identity on a button whose handle matches the
recorded last-synced state. -/
theorem syncStep_eq_self (decode : String → Option AudioBuffer)
    (st : SyncState) (b : KeyConfig)
    (h1 : ∀ u, b.audioUrl = some u → u ≠ "" →
      mapLookup st.lastUrls b.id = some u)
    (h2 : b.audioUrl = none ∨ b.audioUrl = some "" →
      mapLookup st.buffers b.id = none ∧ mapLookup st.lastUrls b.id = none) :
    syncStep decode st b = st := by
  cases hu : b.audioUrl with
  | none =>
    obtain ⟨hb, hl⟩ := h2 (Or.inl hu)
    simp [syncStep, hu, mapErase_of_lookup_none _ _ hb,
      mapErase_of_lookup_none _ _ hl]
  | some u =>
    by_cases hue : u = ""
    · subst hue
      obtain ⟨hb, hl⟩ := h2 (Or.inr hu)
      simp [syncStep, hu, mapErase_of_lookup_none _ _ hb,
        mapErase_of_lookup_none _ _ hl]
    · simp [syncStep, hu, hue, h1 u hu hue]

/-- C9: the AssetCache sync is idempotent.  If every button's sound handle
equals the last-synced handle recorded for its id (and buttons without a
handle have no stale cache entry or record — the situation any completed sync
leaves behind), re-running the sync performs no fetch/decode call and leaves
the buffer cache, the last-synced records and the decode counter unchanged. -/
theorem syncAudio_idempotent (decode : String → Option AudioBuffer)
    (btns : List KeyConfig) (st : SyncState)
    (h : ∀ b ∈ btns,
      (∀ u, b.audioUrl = some u → u ≠ "" →
        mapLookup st.lastUrls b.id = some u) ∧
      (b.audioUrl = none ∨ b.audioUrl = some "" →
        mapLookup st.buffers b.id = none ∧ mapLookup st.lastUrls b.id = none)) :
    syncAudio decode btns st = st := by
  induction btns with
  | nil => rfl
  | cons b rest ih =>
    have hb := h b (List.mem_cons_self b rest)
    have hstep := syncStep_eq_self decode st b hb.1 hb.2
    unfold syncAudio
    rw [List.foldl_cons, hstep]
    exact ih (fun x hx => h x (List.mem_cons_of_mem b hx))

/-! ## Theorems: trim / normalize (claims C3, C4) -/

theorem firstIdx?_some {α : Type} (p : α → Bool) :
    ∀ (l : List α) (i : ℕ), firstIdx? p l = some i →
      ∃ x, l[i]? = some x ∧ p x = true := by
  intro l
  induction l with
  | nil => intro i h; simp [firstIdx?] at h
  | cons a as ih =>
    intro i h
    by_cases hpa : p a
    · rw [firstIdx?, if_pos hpa] at h
      cases h
      exact ⟨a, by simp, hpa⟩
    · rw [firstIdx?, if_neg hpa] at h
      obtain ⟨j, hj, hji⟩ := Option.map_eq_some'.mp h
      obtain ⟨x, hx, hpx⟩ := ih j hj
      subst hji
      exact ⟨x, by simpa using hx, hpx⟩

theorem firstIdx?_le {α : Type} (p : α → Bool) :
    ∀ (l : List α) (i : ℕ) (x : α), l[i]? = some x → p x = true →
      ∃ j, j ≤ i ∧ firstIdx? p l = some j := by
  intro l
  induction l with
  | nil => intro i x hx _; simp at hx
  | cons a as ih =>
    intro i x hx hpx
    by_cases hpa : p a
    · exact ⟨0, Nat.zero_le i, by rw [firstIdx?, if_pos hpa]⟩
    · cases i with
      | zero =>
        obtain rfl : a = x := by simpa using hx
        exact absurd hpx (by simpa using hpa)
      | succ i =>
        rw [List.getElem?_cons_succ] at hx
        obtain ⟨j, hji, hj⟩ := ih i x hx hpx
        refine ⟨j + 1, Nat.succ_le_succ hji, ?_⟩
        rw [firstIdx?, if_neg hpa, hj]
        rfl

theorem lastIdx?_some {α : Type} (p : α → Bool) :
    ∀ (l : List α) (i : ℕ), lastIdx? p l = some i →
      ∃ x, l[i]? = some x ∧ p x = true := by
  intro l
  induction l with
  | nil => intro i h; simp [lastIdx?] at h
  | cons a as ih =>
    intro i h
    cases hrec : lastIdx? p as with
    | some j =>
      simp only [lastIdx?, hrec] at h
      cases h
      obtain ⟨x, hx, hpx⟩ := ih j hrec
      exact ⟨x, by simpa using hx, hpx⟩
    | none =>
      simp only [lastIdx?, hrec] at h
      by_cases hpa : p a
      · rw [if_pos hpa] at h
        cases h
        exact ⟨a, by simp, hpa⟩
      · rw [if_neg hpa] at h
        cases h

theorem lastIdx?_ge {α : Type} (p : α → Bool) :
    ∀ (l : List α) (i : ℕ) (x : α), l[i]? = some x → p x = true →
      ∃ j, i ≤ j ∧ lastIdx? p l = some j := by
  intro l
  induction l with
  | nil => intro i x hx _; simp at hx
  | cons a as ih =>
    intro i x hx hpx
    cases i with
    | zero =>
      cases hrec : lastIdx? p as with
      | some j => exact ⟨j + 1, Nat.zero_le _, by simp only [lastIdx?, hrec]⟩
      | none =>
        obtain rfl : a = x := by simpa using hx
        exact ⟨0, le_refl 0, by simp only [lastIdx?, hrec]; rw [if_pos hpx]⟩
    | succ i =>
      rw [List.getElem?_cons_succ] at hx
      obtain ⟨j, hij, hj⟩ := ih i x hx hpx
      exact ⟨j + 1, Nat.succ_le_succ hij, by simp only [lastIdx?, hj]⟩

theorem foldl_minScan_le {γ : Type} (g : γ → Option ℕ) :
    ∀ (chs : List γ) (a : ℕ),
      chs.foldl (fun s ch => match g ch with | some i => min s i | none => s) a
        ≤ a := by
  intro chs
  induction chs with
  | nil => intro a; exact le_refl a
  | cons ch rest ih =>
    intro a
    rw [List.foldl_cons]
    refine le_trans (ih _) ?_
    cases hg : g ch <;> simp [hg]

theorem foldl_minScan_found {γ : Type} (g : γ → Option ℕ) :
    ∀ (chs : List γ) (a : ℕ) (ch : γ) (i : ℕ), ch ∈ chs → g ch = some i →
      chs.foldl (fun s ch => match g ch with | some i => min s i | none => s) a
        ≤ i := by
  intro chs
  induction chs with
  | nil => intro a ch i h _; simp at h
  | cons c rest ih =>
    intro a ch i hmem hg
    rw [List.foldl_cons]
    rcases List.mem_cons.mp hmem with rfl | hmem'
    · refine le_trans (foldl_minScan_le g rest _) ?_
      simp [hg]
    · exact ih _ ch i hmem' hg

theorem foldl_minScan_cases {γ : Type} (g : γ → Option ℕ) :
    ∀ (chs : List γ) (a : ℕ),
      chs.foldl (fun s ch => match g ch with | some i => min s i | none => s) a
          = a ∨
      ∃ ch ∈ chs, g ch = some
        (chs.foldl (fun s ch => match g ch with | some i => min s i | none => s)
          a) := by
  intro chs
  induction chs with
  | nil => intro a; left; rfl
  | cons c rest ih =>
    intro a
    rw [List.foldl_cons]
    rcases ih ((fun s ch => match g ch with | some i => min s i | none => s) a c)
      with h0 | ⟨ch, hm, hg⟩
    · rw [h0]
      cases hg : g c with
      | none => left; simp [hg]
      | some i =>
        simp only [hg]
        rcases le_total a i with hai | hia
        · left; simp [min_eq_left hai]
        · right
          exact ⟨c, List.mem_cons_self c rest, by rw [hg, min_eq_right hia]⟩
    · right
      exact ⟨ch, List.mem_cons_of_mem c hm, hg⟩

theorem foldl_maxScan_ge {γ : Type} (g : γ → Option ℕ) :
    ∀ (chs : List γ) (a : ℕ),
      a ≤ chs.foldl
        (fun e ch => match g ch with | some i => max e i | none => e) a := by
  intro chs
  induction chs with
  | nil => intro a; exact le_refl a
  | cons ch rest ih =>
    intro a
    rw [List.foldl_cons]
    refine le_trans ?_ (ih _)
    cases hg : g ch <;> simp [hg]

theorem foldl_maxScan_found {γ : Type} (g : γ → Option ℕ) :
    ∀ (chs : List γ) (a : ℕ) (ch : γ) (i : ℕ), ch ∈ chs → g ch = some i →
      i ≤ chs.foldl
        (fun e ch => match g ch with | some i => max e i | none => e) a := by
  intro chs
  induction chs with
  | nil => intro a ch i h _; simp at h
  | cons c rest ih =>
    intro a ch i hmem hg
    rw [List.foldl_cons]
    rcases List.mem_cons.mp hmem with rfl | hmem'
    · refine le_trans ?_ (foldl_maxScan_ge g rest _)
      simp [hg]
    · exact ih _ ch i hmem' hg

theorem foldl_maxScan_cases {γ : Type} (g : γ → Option ℕ) :
    ∀ (chs : List γ) (a : ℕ),
      chs.foldl (fun e ch => match g ch with | some i => max e i | none => e) a
          = a ∨
      ∃ ch ∈ chs, g ch = some
        (chs.foldl (fun e ch => match g ch with | some i => max e i | none => e)
          a) := by
  intro chs
  induction chs with
  | nil => intro a; left; rfl
  | cons c rest ih =>
    intro a
    rw [List.foldl_cons]
    rcases ih ((fun e ch => match g ch with | some i => max e i | none => e) a c)
      with h0 | ⟨ch, hm, hg⟩
    · rw [h0]
      cases hg : g c with
      | none => left; simp [hg]
      | some i =>
        simp only [hg]
        rcases le_total i a with hia | hai
        · left; simp [max_eq_left hia]
        · right
          exact ⟨c, List.mem_cons_self c rest, by rw [hg, max_eq_right hai]⟩
    · right
      exact ⟨ch, List.mem_cons_of_mem c hm, hg⟩

theorem trimStart_le_of_aboveAt (b : AudioBuffer) (thr : ℚ) (i : ℕ)
    (h : AboveAt b thr i) : trimStart b thr ≤ i := by
  obtain ⟨ch, hch, hi, habove⟩ := h
  have hx : ch[i]? = some (ch.getD i 0) := by
    rw [List.getD_eq_getElem ch 0 hi]
    exact List.getElem?_eq_getElem hi
  obtain ⟨j, hji, hj⟩ :=
    firstIdx?_le (fun x => |x| > thr) ch i (ch.getD i 0) hx (by simpa using habove)
  unfold trimStart
  exact le_trans
    (foldl_minScan_found (fun ch => firstIdx? (fun x => |x| > thr) ch)
      b.channels b.length ch j hch hj) hji

theorem le_trimEnd_of_aboveAt (b : AudioBuffer) (thr : ℚ) (i : ℕ)
    (h : AboveAt b thr i) : i ≤ trimEnd b thr := by
  obtain ⟨ch, hch, hi, habove⟩ := h
  have hx : ch[i]? = some (ch.getD i 0) := by
    rw [List.getD_eq_getElem ch 0 hi]
    exact List.getElem?_eq_getElem hi
  obtain ⟨j, hij, hj⟩ :=
    lastIdx?_ge (fun x => |x| > thr) ch i (ch.getD i 0) hx (by simpa using habove)
  unfold trimEnd
  exact le_trans hij
    (foldl_maxScan_found (fun ch => lastIdx? (fun x => |x| > thr) ch)
      b.channels 0 ch j hch hj)

theorem aboveAt_trimEnd (b : AudioBuffer) (thr : ℚ)
    (htrim : trimStart b thr < trimEnd b thr) : AboveAt b thr (trimEnd b thr) := by
  rcases foldl_maxScan_cases (fun ch => lastIdx? (fun x => |x| > thr) ch)
      b.channels 0 with h0 | ⟨ch, hch, hg⟩
  · exfalso
    have : trimEnd b thr = 0 := h0
    omega
  · obtain ⟨x, hx, hpx⟩ :=
      lastIdx?_some (fun x => |x| > thr) ch (trimEnd b thr) hg
    have hlt : trimEnd b thr < ch.length := (List.getElem?_eq_some.mp hx).1
    have hval : ch.getD (trimEnd b thr) 0 = x := by
      rw [List.getD_eq_getElem ch 0 hlt]
      have := List.getElem?_eq_getElem hlt
      rw [this] at hx
      exact Option.some.inj hx
    exact ⟨ch, hch, hlt, by rw [hval]; simpa using hpx⟩

theorem aboveAt_trimStart (b : AudioBuffer) (thr : ℚ) (hwf : b.WF)
    (htrim : trimStart b thr < trimEnd b thr) :
    AboveAt b thr (trimStart b thr) := by
  rcases foldl_minScan_cases (fun ch => firstIdx? (fun x => |x| > thr) ch)
      b.channels b.length with h0 | ⟨ch, hch, hg⟩
  · exfalso
    have hS : trimStart b thr = b.length := h0
    obtain ⟨che, hche, hlte, _⟩ := aboveAt_trimEnd b thr htrim
    rw [hwf che hche] at hlte
    omega
  · obtain ⟨x, hx, hpx⟩ :=
      firstIdx?_some (fun x => |x| > thr) ch (trimStart b thr) hg
    have hlt : trimStart b thr < ch.length := (List.getElem?_eq_some.mp hx).1
    have hval : ch.getD (trimStart b thr) 0 = x := by
      rw [List.getD_eq_getElem ch 0 hlt]
      have := List.getElem?_eq_getElem hlt
      rw [this] at hx
      exact Option.some.inj hx
    exact ⟨ch, hch, hlt, by rw [hval]; simpa using hpx⟩

theorem trimStart_eq_length_of_no_above (b : AudioBuffer) (thr : ℚ)
    (h : ¬ ∃ i, AboveAt b thr i) : trimStart b thr = b.length := by
  rcases foldl_minScan_cases (fun ch => firstIdx? (fun x => |x| > thr) ch)
      b.channels b.length with h0 | ⟨ch, hch, hg⟩
  · exact h0
  · exfalso
    obtain ⟨x, hx, hpx⟩ :=
      firstIdx?_some (fun x => |x| > thr) ch (trimStart b thr) hg
    have hlt : trimStart b thr < ch.length := (List.getElem?_eq_some.mp hx).1
    have hval : ch.getD (trimStart b thr) 0 = x := by
      rw [List.getD_eq_getElem ch 0 hlt]
      have := List.getElem?_eq_getElem hlt
      rw [this] at hx
      exact Option.some.inj hx
    exact h ⟨trimStart b thr, ch, hch, hlt, by rw [hval]; simpa using hpx⟩

theorem trimEnd_eq_zero_of_no_above (b : AudioBuffer) (thr : ℚ)
    (h : ¬ ∃ i, AboveAt b thr i) : trimEnd b thr = 0 := by
  rcases foldl_maxScan_cases (fun ch => lastIdx? (fun x => |x| > thr) ch)
      b.channels 0 with h0 | ⟨ch, hch, hg⟩
  · exact h0
  · exfalso
    obtain ⟨x, hx, hpx⟩ :=
      lastIdx?_some (fun x => |x| > thr) ch (trimEnd b thr) hg
    have hlt : trimEnd b thr < ch.length := (List.getElem?_eq_some.mp hx).1
    have hval : ch.getD (trimEnd b thr) 0 = x := by
      rw [List.getD_eq_getElem ch 0 hlt]
      have := List.getElem?_eq_getElem hlt
      rw [this] at hx
      exact Option.some.inj hx
    exact h ⟨trimEnd b thr, ch, hch, hlt, by rw [hval]; simpa using hpx⟩

theorem trimAndNormalize_of_ge (b : AudioBuffer) (thr : ℚ)
    (h : trimStart b thr ≥ trimEnd b thr) : trimAndNormalize b thr = b := by
  unfold trimAndNormalize
  rw [if_pos h]

theorem trimAndNormalize_of_lt (b : AudioBuffer) (thr : ℚ)
    (h : trimStart b thr < trimEnd b thr) :
    trimAndNormalize b thr =
      { sampleRate := b.sampleRate,
        length := trimLen b thr,
        channels :=
          if 0 < windowPeak (trimS b thr) (trimLen b thr) b.channels ∧
              windowPeak (trimS b thr) (trimLen b thr) b.channels < 95/100 then
            (b.channels.map (windowChannel (trimS b thr) (trimLen b thr))).map
              (List.map (fun x =>
                x * (95/100 / windowPeak (trimS b thr) (trimLen b thr) b.channels)))
          else b.channels.map (windowChannel (trimS b thr) (trimLen b thr)) } := by
  unfold trimAndNormalize
  rw [if_neg (not_le.mpr h)]

theorem windowChannel_length (s len : ℕ) (ch : List ℚ) :
    (windowChannel s len ch).length = len := by
  unfold windowChannel
  have : ((ch.drop s).take len).length ≤ len := by simp
  simp only [List.length_append, List.length_replicate]
  omega

theorem windowChannel_getD (s len : ℕ) (ch : List ℚ) (j : ℕ) (hj : j < len) :
    (windowChannel s len ch).getD j 0 = ch.getD (s + j) 0 := by
  unfold windowChannel
  have htl : ((ch.drop s).take len).length = min len (ch.length - s) := by simp
  rw [List.getD_eq_getElem?_getD, List.getElem?_append]
  by_cases hcase : j < ((ch.drop s).take len).length
  · rw [if_pos hcase, List.getElem?_take, if_pos hj, List.getElem?_drop,
      List.getD_eq_getElem?_getD]
  · rw [if_neg hcase, List.getElem?_replicate]
    rw [htl] at hcase
    have hsub : j - ((ch.drop s).take len).length <
        len - ((ch.drop s).take len).length := by rw [htl]; omega
    rw [if_pos hsub]
    have hout : ch.length ≤ s + j := by omega
    rw [List.getD_eq_default ch 0 hout]
    rfl

theorem peakFold_ge_init (l : List ℚ) :
    ∀ a : ℚ, a ≤ l.foldl (fun p x => max p |x|) a := by
  induction l with
  | nil => intro a; exact le_refl a
  | cons x xs ih =>
    intro a
    rw [List.foldl_cons]
    exact le_trans (le_max_left a |x|) (ih _)

theorem peakFold_nonneg (l : List ℚ) (a : ℚ) (ha : 0 ≤ a) :
    0 ≤ l.foldl (fun p x => max p |x|) a :=
  le_trans ha (peakFold_ge_init l a)

theorem peakFold_ge_elem (l : List ℚ) :
    ∀ (a x : ℚ), x ∈ l → |x| ≤ l.foldl (fun p x => max p |x|) a := by
  induction l with
  | nil => intro a x h; simp at h
  | cons y ys ih =>
    intro a x hx
    rw [List.foldl_cons]
    rcases List.mem_cons.mp hx with rfl | hmem
    · exact le_trans (le_max_right a |x|) (peakFold_ge_init ys _)
    · exact ih _ x hmem

theorem windowPeakFold_ge_init (s len : ℕ) (chs : List (List ℚ)) :
    ∀ a : ℚ, a ≤ chs.foldl
      (fun p ch => ((ch.drop s).take len).foldl (fun p x => max p |x|) p) a := by
  induction chs with
  | nil => intro a; exact le_refl a
  | cons ch rest ih =>
    intro a
    rw [List.foldl_cons]
    exact le_trans (peakFold_ge_init _ a) (ih _)

theorem windowPeakFold_ge_elem (s len : ℕ) (chs : List (List ℚ)) :
    ∀ (a x : ℚ) (ch : List ℚ), ch ∈ chs → x ∈ (ch.drop s).take len →
      |x| ≤ chs.foldl
        (fun p ch => ((ch.drop s).take len).foldl (fun p x => max p |x|) p) a := by
  induction chs with
  | nil => intro a x ch h _; simp at h
  | cons c rest ih =>
    intro a x ch hch hx
    rw [List.foldl_cons]
    rcases List.mem_cons.mp hch with rfl | hmem
    · exact le_trans (peakFold_ge_elem _ a x hx) (windowPeakFold_ge_init s len rest _)
    · exact ih _ x ch hmem hx

/-- The peak the source computes over the padded window exceeds the
threshold (hence is positive) whenever trimming takes place. -/
theorem windowPeak_pos (b : AudioBuffer) (thr : ℚ) (hwf : b.WF) (hthr : 0 ≤ thr)
    (htrim : trimStart b thr < trimEnd b thr) :
    0 < windowPeak (trimS b thr) (trimLen b thr) b.channels := by
  obtain ⟨ch, hch, hlt, habove⟩ := aboveAt_trimEnd b thr htrim
  have hblen : ch.length = b.length := hwf ch hch
  have hSle : trimS b thr ≤ trimEnd b thr :=
    le_trans (Nat.sub_le _ _) (le_of_lt htrim)
  have hEle : trimEnd b thr ≤ trimE b thr := by
    unfold trimE
    exact le_min (by omega) (Nat.le_add_right _ _)
  have hjlen : trimEnd b thr - trimS b thr < trimLen b thr := by
    unfold trimLen
    omega
  have hmem : ch.getD (trimEnd b thr) 0 ∈
      (ch.drop (trimS b thr)).take (trimLen b thr) := by
    have h1 : ((ch.drop (trimS b thr)).take (trimLen b thr))[trimEnd b thr -
        trimS b thr]? = some (ch.getD (trimEnd b thr) 0) := by
      rw [List.getElem?_take, if_pos hjlen, List.getElem?_drop]
      have heq : trimS b thr + (trimEnd b thr - trimS b thr) = trimEnd b thr := by
        omega
      rw [heq, List.getD_eq_getElem ch 0 hlt]
      exact List.getElem?_eq_getElem hlt
    exact List.getElem?_mem h1
  have hge := windowPeakFold_ge_elem (trimS b thr) (trimLen b thr) b.channels 0
    (ch.getD (trimEnd b thr) 0) ch hch hmem
  calc (0:ℚ) ≤ thr := hthr
    _ < |ch.getD (trimEnd b thr) 0| := habove
    _ ≤ _ := hge

theorem peakFold_map_scale (f : ℚ) (hf : 0 ≤ f) (l : List ℚ) :
    ∀ a : ℚ,
      (l.map (fun x => x * f)).foldl (fun p x => max p |x|) (f * a)
        = f * l.foldl (fun p x => max p |x|) a := by
  induction l with
  | nil => intro a; rfl
  | cons x xs ih =>
    intro a
    rw [List.map_cons, List.foldl_cons, List.foldl_cons]
    have hstep : max (f * a) |x * f| = f * max a |x| := by
      rw [abs_mul, abs_of_nonneg hf, mul_max_of_nonneg _ _ hf, mul_comm |x| f]
    rw [hstep]
    exact ih _

theorem peakFold_replicate_zero (n : ℕ) :
    ∀ a : ℚ, 0 ≤ a →
      (List.replicate n (0:ℚ)).foldl (fun p x => max p |x|) a = a := by
  induction n with
  | zero => intro a _; rfl
  | succ n ih =>
    intro a ha
    rw [List.replicate_succ, List.foldl_cons]
    have hstep : max a |(0:ℚ)| = a := by
      rw [abs_zero]
      exact max_eq_left ha
    rw [hstep]
    exact ih a ha

/-- Scaling every channel of the windowed copy by `f ≥ 0` scales the whole
peak fold by `f`. -/
theorem bufPeakFold_scaled (f : ℚ) (hf : 0 ≤ f) (s len : ℕ) :
    ∀ (chs : List (List ℚ)) (a : ℚ), 0 ≤ a →
      ((chs.map (windowChannel s len)).map (List.map (fun x => x * f))).foldl
          (fun p ch => ch.foldl (fun p x => max p |x|) p) (f * a)
        = f * chs.foldl
            (fun p ch => ((ch.drop s).take len).foldl (fun p x => max p |x|) p)
            a := by
  intro chs
  induction chs with
  | nil => intro a _; rfl
  | cons ch rest ih =>
    intro a ha
    rw [List.map_cons, List.map_cons, List.foldl_cons, List.foldl_cons]
    have hmapwin : List.map (fun x => x * f) (windowChannel s len ch)
        = List.map (fun x => x * f) ((ch.drop s).take len) ++
          List.replicate (len - ((ch.drop s).take len).length) 0 := by
      unfold windowChannel
      rw [List.map_append, List.map_replicate]
      simp
    rw [hmapwin, List.foldl_append, peakFold_map_scale f hf _ a,
      peakFold_replicate_zero _ _ (mul_nonneg hf (peakFold_nonneg _ a ha))]
    exact ih _ (peakFold_nonneg _ a ha)

theorem getD_map' {α β : Type} (f : α → β) (l : List α) (c : ℕ)
    (h : c < l.length) (d : β) (d' : α) :
    (l.map f).getD c d = f (l.getD c d') := by
  rw [List.getD_eq_getElem _ _ (by simpa using h), List.getD_eq_getElem _ _ h,
    List.getElem_map]

/-- C3 counterexample: a buffer whose only above-threshold sample sits at one
single index (first = last = 7) is returned *unchanged* by the code
(`start >= end` is taken), while the claim prescribes the padded window
`[6, 8]` of length 3 — not the unchanged 15-sample input. -/
theorem trimAndNormalize_single_sample_counterexample :
    trimStart spikeBuf (1/100) = 7 ∧
    trimEnd spikeBuf (1/100) = 7 ∧
    AboveAt spikeBuf (1/100) 7 ∧
    trimAndNormalize spikeBuf (1/100) = spikeBuf ∧
    spikeBuf.length = 15 ∧
    trimE spikeBuf (1/100) - trimS spikeBuf (1/100) + 1 = 3 := by
  have hs : trimStart spikeBuf (1/100) = 7 := by
    norm_num [trimStart, firstIdx?, spikeBuf, List.foldl, abs_of_nonneg]
  have he : trimEnd spikeBuf (1/100) = 7 := by
    norm_num [trimEnd, lastIdx?, spikeBuf, List.foldl, abs_of_nonneg]
  refine ⟨hs, he, ?_, trimAndNormalize_of_ge spikeBuf (1/100) (by rw [hs, he]),
    rfl, ?_⟩
  · refine ⟨[0, 0, 0, 0, 0, 0, 0, 1, 0, 0, 0, 0, 0, 0, 0], ?_, ?_, ?_⟩
    · show _ ∈ spikeBuf.channels
      simp [spikeBuf]
    · norm_num
    · norm_num [List.getD]
  · unfold trimE trimS trimPad
    rw [hs, he]
    norm_num [spikeBuf]

/-- C3 (amended): `trimAndNormalize` with a well-formed buffer: if no sample
exceeds the threshold — or, more generally, whenever the scan yields
`start ≥ end` (which also happens when the first and last above-threshold
indices coincide) — the input buffer is returned unchanged.  `trimStart` /
`trimEnd` bound every above-threshold index and are themselves
above-threshold when trimming happens, and then the output is a new buffer
holding exactly the region from `trimStart - pad` to
`min(length - 1, trimEnd + pad)` (`pad = ⌊sampleRate * 0.05⌋`), each sample
equal to the corresponding input sample times the single normalization
factor (≥ 1) of the normalization step. -/
theorem trimAndNormalize_spec (b : AudioBuffer) (thr : ℚ) (hwf : b.WF) :
    ((¬ ∃ i, AboveAt b thr i) → trimAndNormalize b thr = b) ∧
    (trimEnd b thr ≤ trimStart b thr → trimAndNormalize b thr = b) ∧
    (∀ i, AboveAt b thr i → trimStart b thr ≤ i ∧ i ≤ trimEnd b thr) ∧
    (trimStart b thr < trimEnd b thr →
      AboveAt b thr (trimStart b thr) ∧
      AboveAt b thr (trimEnd b thr) ∧
      (trimAndNormalize b thr).sampleRate = b.sampleRate ∧
      (trimAndNormalize b thr).channels.length = b.channels.length ∧
      (trimAndNormalize b thr).length = trimE b thr - trimS b thr + 1 ∧
      (trimAndNormalize b thr).WF ∧
      (∃ factor : ℚ, 1 ≤ factor ∧
        ∀ c, c < b.channels.length → ∀ j, j < trimLen b thr →
          ((trimAndNormalize b thr).channels.getD c []).getD j 0 =
            factor * (b.channels.getD c []).getD (trimS b thr + j) 0)) := by
  refine ⟨?_, trimAndNormalize_of_ge b thr, ?_, ?_⟩
  · intro hno
    apply trimAndNormalize_of_ge
    rw [trimStart_eq_length_of_no_above b thr hno,
      trimEnd_eq_zero_of_no_above b thr hno]
    exact Nat.zero_le _
  · intro i hi
    exact ⟨trimStart_le_of_aboveAt b thr i hi, le_trimEnd_of_aboveAt b thr i hi⟩
  · intro htrim
    have hS := aboveAt_trimStart b thr hwf htrim
    have hE := aboveAt_trimEnd b thr htrim
    have heq := trimAndNormalize_of_lt b thr htrim
    refine ⟨hS, hE, by rw [heq], ?_, by rw [heq]; rfl, ?_, ?_⟩
    · rw [heq]
      dsimp only
      split <;> simp
    · rw [heq]
      intro ch' hch'
      dsimp only at hch' ⊢
      split at hch'
      · obtain ⟨w, hw, rfl⟩ := List.mem_map.mp hch'
        obtain ⟨ch, _, rfl⟩ := List.mem_map.mp hw
        simp [windowChannel_length]
      · obtain ⟨ch, _, rfl⟩ := List.mem_map.mp hch'
        simp [windowChannel_length]
    · rw [heq]
      dsimp only
      by_cases hpk : 0 < windowPeak (trimS b thr) (trimLen b thr) b.channels ∧
          windowPeak (trimS b thr) (trimLen b thr) b.channels < 95/100
      · rw [if_pos hpk]
        refine ⟨95/100 / windowPeak (trimS b thr) (trimLen b thr) b.channels,
          le_of_lt ((one_lt_div hpk.1).mpr hpk.2), ?_⟩
        intro c hc j hj
        rw [getD_map'
          (List.map (fun x =>
            x * (95/100 / windowPeak (trimS b thr) (trimLen b thr) b.channels)))
          (b.channels.map (windowChannel (trimS b thr) (trimLen b thr))) c
          (by simpa using hc) [] []]
        rw [getD_map' (windowChannel (trimS b thr) (trimLen b thr)) b.channels c
          hc [] []]
        rw [getD_map'
          (fun x =>
            x * (95/100 / windowPeak (trimS b thr) (trimLen b thr) b.channels))
          (windowChannel (trimS b thr) (trimLen b thr) (b.channels.getD c []))
          j (by rw [windowChannel_length]; exact hj) 0 0]
        rw [windowChannel_getD _ _ _ j hj]
        ring
      · rw [if_neg hpk]
        refine ⟨1, le_refl 1, ?_⟩
        intro c hc j hj
        rw [getD_map' (windowChannel (trimS b thr) (trimLen b thr)) b.channels c
          hc [] [], windowChannel_getD _ _ _ j hj, one_mul]

/-- Witness for C3 on a concrete well-formed buffer with a genuine trim
window. -/
theorem trimAndNormalize_spec_witness :
    quietBuf.WF ∧
    (((¬ ∃ i, AboveAt quietBuf (1/100) i) →
        trimAndNormalize quietBuf (1/100) = quietBuf) ∧
      (trimEnd quietBuf (1/100) ≤ trimStart quietBuf (1/100) →
        trimAndNormalize quietBuf (1/100) = quietBuf) ∧
      (∀ i, AboveAt quietBuf (1/100) i →
        trimStart quietBuf (1/100) ≤ i ∧ i ≤ trimEnd quietBuf (1/100)) ∧
      (trimStart quietBuf (1/100) < trimEnd quietBuf (1/100) →
        AboveAt quietBuf (1/100) (trimStart quietBuf (1/100)) ∧
        AboveAt quietBuf (1/100) (trimEnd quietBuf (1/100)) ∧
        (trimAndNormalize quietBuf (1/100)).sampleRate = quietBuf.sampleRate ∧
        (trimAndNormalize quietBuf (1/100)).channels.length =
          quietBuf.channels.length ∧
        (trimAndNormalize quietBuf (1/100)).length =
          trimE quietBuf (1/100) - trimS quietBuf (1/100) + 1 ∧
        (trimAndNormalize quietBuf (1/100)).WF ∧
        (∃ factor : ℚ, 1 ≤ factor ∧
          ∀ c, c < quietBuf.channels.length → ∀ j, j < trimLen quietBuf (1/100) →
            ((trimAndNormalize quietBuf (1/100)).channels.getD c []).getD j 0 =
              factor *
                (quietBuf.channels.getD c []).getD
                  (trimS quietBuf (1/100) + j) 0))) :=
  ⟨by decide, trimAndNormalize_spec quietBuf (1/100) (by decide)⟩

/-- C4: whenever trimming happens, the window peak the code computes is
positive; if it is below 0.95, every output sample is the window sample
scaled by `0.95 / peak` — a factor strictly greater than 1 (never an
attenuation) — and the output's peak is exactly 0.95; a window peaking at
0.95 or above is left unscaled. -/
theorem normalize_spec (b : AudioBuffer) (thr : ℚ) (hwf : b.WF) (hthr : 0 ≤ thr)
    (htrim : trimStart b thr < trimEnd b thr) :
    0 < windowPeak (trimS b thr) (trimLen b thr) b.channels ∧
    (windowPeak (trimS b thr) (trimLen b thr) b.channels < 95/100 →
      1 < 95/100 / windowPeak (trimS b thr) (trimLen b thr) b.channels ∧
      (trimAndNormalize b thr).channels =
        (b.channels.map (windowChannel (trimS b thr) (trimLen b thr))).map
          (List.map (fun x =>
            x * (95/100 / windowPeak (trimS b thr) (trimLen b thr) b.channels))) ∧
      bufPeak (trimAndNormalize b thr) = 95/100) ∧
    (95/100 ≤ windowPeak (trimS b thr) (trimLen b thr) b.channels →
      (trimAndNormalize b thr).channels =
        b.channels.map (windowChannel (trimS b thr) (trimLen b thr))) := by
  have hpos := windowPeak_pos b thr hwf hthr htrim
  have heq := trimAndNormalize_of_lt b thr htrim
  refine ⟨hpos, ?_, ?_⟩
  · intro hlt
    have hcond : 0 < windowPeak (trimS b thr) (trimLen b thr) b.channels ∧
        windowPeak (trimS b thr) (trimLen b thr) b.channels < 95/100 :=
      ⟨hpos, hlt⟩
    have hf1 : 1 < 95/100 / windowPeak (trimS b thr) (trimLen b thr) b.channels :=
      (one_lt_div hpos).mpr hlt
    refine ⟨hf1, ?_, ?_⟩
    · rw [heq]
      dsimp only
      rw [if_pos hcond]
    · have hf0 : (0:ℚ) ≤
          95/100 / windowPeak (trimS b thr) (trimLen b thr) b.channels :=
        le_of_lt (lt_trans one_pos hf1)
      unfold bufPeak
      rw [heq]
      dsimp only
      rw [if_pos hcond]
      have hsc := bufPeakFold_scaled
        (95/100 / windowPeak (trimS b thr) (trimLen b thr) b.channels) hf0
        (trimS b thr) (trimLen b thr) b.channels 0 (le_refl 0)
      rw [mul_zero] at hsc
      rw [hsc]
      show (95/100 / windowPeak (trimS b thr) (trimLen b thr) b.channels) *
        windowPeak (trimS b thr) (trimLen b thr) b.channels = 95/100
      exact div_mul_cancel₀ _ (ne_of_gt hpos)
  · intro hge
    rw [heq]
    dsimp only
    rw [if_neg (fun hcond => absurd hcond.2 (not_lt.mpr hge))]

/-- Witness for C4 on a buffer whose window peak is 1/2. -/
theorem normalize_spec_witness :
    quietBuf.WF ∧ trimStart quietBuf (1/100) < trimEnd quietBuf (1/100) ∧
    (0 < windowPeak (trimS quietBuf (1/100)) (trimLen quietBuf (1/100))
        quietBuf.channels ∧
      (windowPeak (trimS quietBuf (1/100)) (trimLen quietBuf (1/100))
          quietBuf.channels < 95/100 →
        1 < 95/100 / windowPeak (trimS quietBuf (1/100))
            (trimLen quietBuf (1/100)) quietBuf.channels ∧
        (trimAndNormalize quietBuf (1/100)).channels =
          (quietBuf.channels.map
            (windowChannel (trimS quietBuf (1/100)) (trimLen quietBuf (1/100)))).map
            (List.map (fun x =>
              x * (95/100 / windowPeak (trimS quietBuf (1/100))
                (trimLen quietBuf (1/100)) quietBuf.channels))) ∧
        bufPeak (trimAndNormalize quietBuf (1/100)) = 95/100) ∧
      (95/100 ≤ windowPeak (trimS quietBuf (1/100)) (trimLen quietBuf (1/100))
          quietBuf.channels →
        (trimAndNormalize quietBuf (1/100)).channels =
          quietBuf.channels.map
            (windowChannel (trimS quietBuf (1/100)) (trimLen quietBuf (1/100))))) :=
  ⟨by decide, by
    norm_num [trimStart, trimEnd, firstIdx?, lastIdx?, quietBuf, List.foldl,
      abs_of_nonneg],
    normalize_spec quietBuf (1/100) (by decide) (by norm_num) (by
      norm_num [trimStart, trimEnd, firstIdx?, lastIdx?, quietBuf, List.foldl,
        abs_of_nonneg])⟩

/-- The already-loud case of C4 at a concrete buffer: peak 0.98 is left
unscaled. -/
theorem normalize_loud_unscaled :
    windowPeak (trimS loudBuf (1/100)) (trimLen loudBuf (1/100))
        loudBuf.channels = 98/100 ∧
    (trimAndNormalize loudBuf (1/100)).channels =
      loudBuf.channels.map
        (windowChannel (trimS loudBuf (1/100)) (trimLen loudBuf (1/100))) := by
  have hs : trimStart loudBuf (1/100) = 3 := by
    norm_num [trimStart, firstIdx?, loudBuf, List.foldl, abs_of_nonneg]
  have he : trimEnd loudBuf (1/100) = 5 := by
    norm_num [trimEnd, lastIdx?, loudBuf, List.foldl, abs_of_nonneg]
  have hS2 : trimS loudBuf (1/100) = 2 := by
    unfold trimS trimPad
    rw [hs]
    norm_num [loudBuf]
  have hL5 : trimLen loudBuf (1/100) = 5 := by
    unfold trimLen trimE trimS trimPad
    rw [hs, he]
    norm_num [loudBuf]
  have hpk : windowPeak (trimS loudBuf (1/100)) (trimLen loudBuf (1/100))
      loudBuf.channels = 98/100 := by
    rw [hS2, hL5]
    norm_num [windowPeak, loudBuf, List.foldl, abs_of_nonneg]
  refine ⟨hpk, ?_⟩
  rw [trimAndNormalize_of_lt loudBuf (1/100) (by rw [hs, he]; norm_num)]
  dsimp only
  rw [if_neg (fun hcond => by rw [hpk] at hcond; norm_num at hcond)]

/-- Witness for C9: a two-button state already in sync (one button with a
sound handle recorded as last-synced, one without) is left untouched with
zero decode calls. -/
theorem syncAudio_idempotent_witness :
    (∀ b ∈ ([⟨"b1", "x", "red", some "u", none, none⟩,
             ⟨"b2", "y", "red", none, none, none⟩] : List KeyConfig),
      (∀ u, b.audioUrl = some u → u ≠ "" →
        mapLookup ([("b1", "u")] : List (String × String)) b.id = some u) ∧
      (b.audioUrl = none ∨ b.audioUrl = some "" →
        mapLookup ([("b1", spikeBuf)] : List (String × AudioBuffer)) b.id =
            none ∧
        mapLookup ([("b1", "u")] : List (String × String)) b.id = none)) ∧
    syncAudio (fun _ => none)
        [⟨"b1", "x", "red", some "u", none, none⟩,
         ⟨"b2", "y", "red", none, none, none⟩]
        ⟨[("b1", spikeBuf)], [("b1", "u")], 0⟩ =
      ⟨[("b1", spikeBuf)], [("b1", "u")], 0⟩ := by
  have h : ∀ b ∈ ([⟨"b1", "x", "red", some "u", none, none⟩,
             ⟨"b2", "y", "red", none, none, none⟩] : List KeyConfig),
      (∀ u, b.audioUrl = some u → u ≠ "" →
        mapLookup ([("b1", "u")] : List (String × String)) b.id = some u) ∧
      (b.audioUrl = none ∨ b.audioUrl = some "" →
        mapLookup ([("b1", spikeBuf)] : List (String × AudioBuffer)) b.id =
            none ∧
        mapLookup ([("b1", "u")] : List (String × String)) b.id = none) := by
    intro b hb
    simp only [List.mem_cons, List.not_mem_nil, or_false] at hb
    rcases hb with rfl | rfl
    · refine ⟨fun u hu _ => ?_, fun habs => ?_⟩
      · injection hu with h
        subst h
        rfl
      · rcases habs with habs | habs <;> simp at habs
    · exact ⟨fun u hu _ => by simp at hu, fun _ => ⟨rfl, rfl⟩⟩
  exact ⟨h, syncAudio_idempotent (fun _ => none) _ _ h⟩

/-! ## Theorems: WAV encoder (claim C8) -/

theorem writeBytes_length :
    ∀ (bs buf : List ℕ) (off : ℕ), (writeBytes buf off bs).length = buf.length := by
  intro bs
  induction bs with
  | nil => intro buf off; rfl
  | cons v vs ih =>
    intro buf off
    show (writeBytes (buf.set off v) (off + 1) vs).length = buf.length
    rw [ih, List.length_set]

theorem writeBytes_append_left :
    ∀ (bs l1 l2 : List ℕ) (off : ℕ), off + bs.length ≤ l1.length →
      writeBytes (l1 ++ l2) off bs = writeBytes l1 off bs ++ l2 := by
  intro bs
  induction bs with
  | nil => intro l1 l2 off _; rfl
  | cons v vs ih =>
    intro l1 l2 off h
    have hlen : vs.length + 1 = (v :: vs).length := rfl
    show writeBytes ((l1 ++ l2).set off v) (off + 1) vs
      = writeBytes (l1.set off v) (off + 1) vs ++ l2
    rw [List.set_append_left off v (by simp at h; omega)]
    exact ih (l1.set off v) l2 (off + 1) (by rw [List.length_set]; simp at h; omega)

theorem writeBytes_append_right :
    ∀ (bs l1 l2 : List ℕ) (k : ℕ),
      writeBytes (l1 ++ l2) (l1.length + k) bs = l1 ++ writeBytes l2 k bs := by
  intro bs
  induction bs with
  | nil => intro l1 l2 k; rfl
  | cons v vs ih =>
    intro l1 l2 k
    show writeBytes ((l1 ++ l2).set (l1.length + k) v) (l1.length + k + 1) vs
      = l1 ++ writeBytes (l2.set k v) (k + 1) vs
    rw [List.set_append_right _ _ (Nat.le_add_right l1.length k),
      Nat.add_sub_cancel_left, Nat.add_assoc]
    exact ih l1 (l2.set k v) (k + 1)

theorem writeBytes_start_right (bs l1 l2 : List ℕ) :
    writeBytes (l1 ++ l2) l1.length bs = l1 ++ writeBytes l2 0 bs := by
  have h := writeBytes_append_right bs l1 l2 0
  rwa [Nat.add_zero] at h

theorem writeMany_append_left :
    ∀ (ws : List (ℕ × List ℕ)) (l1 l2 : List ℕ),
      (∀ p ∈ ws, p.1 + p.2.length ≤ l1.length) →
      writeMany (l1 ++ l2) ws = writeMany l1 ws ++ l2 := by
  intro ws
  induction ws with
  | nil => intro l1 l2 _; rfl
  | cons p rest ih =>
    intro l1 l2 hws
    obtain ⟨off, bs⟩ := p
    show writeMany (writeBytes (l1 ++ l2) off bs) rest
      = writeMany (writeBytes l1 off bs) rest ++ l2
    rw [writeBytes_append_left bs l1 l2 off (hws (off, bs) (List.mem_cons_self _ _))]
    exact ih (writeBytes l1 off bs) l2
      (fun q hq => by rw [writeBytes_length]; exact hws q (List.mem_cons_of_mem _ hq))

theorem writeTwo (rest a b : ℕ) :
    writeBytes (List.replicate (2 + rest) 0) 0 [a, b]
      = a :: b :: List.replicate rest 0 := by
  rw [List.replicate_add]
  rfl

theorem flatMap_range_length (L : ℕ) (u : ℕ → List ℕ)
    (hu : ∀ i, (u i).length = L) :
    ∀ m : ℕ, ((List.range m).flatMap u).length = m * L := by
  intro m
  induction m with
  | zero => simp
  | succ m ih =>
    rw [List.range_succ, List.flatMap_append, List.length_append, ih]
    have : ([m].flatMap u).length = L := by
      show (u m ++ []).length = L
      rw [List.append_nil]
      exact hu m
    rw [this]
    ring

/-- Writing one frame's interleaved channel bytes at the start of the zero
region appends exactly those bytes. -/
theorem writeFrame_eq (w : ℕ → List ℕ) (hw : ∀ c, (w c).length = 2) :
    ∀ (n : ℕ) (l1 : List ℕ) (rest base : ℕ), base = l1.length →
      (List.range n).foldl
        (fun buf c => writeBytes buf (base + c * 2) (w c))
        (l1 ++ List.replicate (n * 2 + rest) 0)
      = l1 ++ (List.range n).flatMap w ++ List.replicate rest 0 := by
  intro n
  induction n with
  | zero =>
    intro l1 rest base _
    simp
  | succ n ih =>
    intro l1 rest base hb
    rw [List.range_succ, List.foldl_append]
    have harg : (n + 1) * 2 + rest = n * 2 + (2 + rest) := by ring
    rw [harg, ih l1 (2 + rest) base hb]
    simp only [List.foldl_cons, List.foldl_nil]
    have hflen : ((List.range n).flatMap w).length = n * 2 :=
      flatMap_range_length 2 w hw n
    have hoff : base + n * 2 = (l1 ++ (List.range n).flatMap w).length := by
      rw [List.length_append, hflen, hb]
    obtain ⟨a, b2, hab⟩ := List.length_eq_two.mp (hw n)
    rw [hoff, writeBytes_start_right, hab, writeTwo, List.flatMap_append]
    show l1 ++ (List.range n).flatMap w ++ (a :: b2 :: List.replicate rest 0)
      = l1 ++ ((List.range n).flatMap w ++ [n].flatMap w) ++ List.replicate rest 0
    have hsingle : ([n] : List ℕ).flatMap w = w n ++ [] := rfl
    rw [hsingle, hab]
    simp

/-- Writing every frame's bytes into the zero data region appends the frames'
interleaved bytes in order. -/
theorem writeFrames_eq (n : ℕ) (w2 : ℕ → ℕ → List ℕ)
    (hw : ∀ i c, (w2 i c).length = 2) :
    ∀ (m : ℕ) (l1 : List ℕ) (rest base : ℕ), base = l1.length →
      (List.range m).foldl
        (fun buf i =>
          (List.range n).foldl
            (fun buf c => writeBytes buf (base + i * (n * 2) + c * 2) (w2 i c))
            buf)
        (l1 ++ List.replicate (m * (n * 2) + rest) 0)
      = l1 ++ (List.range m).flatMap
          (fun i => (List.range n).flatMap (w2 i)) ++
          List.replicate rest 0 := by
  intro m
  induction m with
  | zero =>
    intro l1 rest base _
    simp
  | succ m ih =>
    intro l1 rest base hb
    rw [List.range_succ, List.foldl_append]
    have harg : (m + 1) * (n * 2) + rest = m * (n * 2) + (n * 2 + rest) := by
      ring
    rw [harg, ih l1 (n * 2 + rest) base hb]
    simp only [List.foldl_cons, List.foldl_nil]
    have hflen : ((List.range m).flatMap
        (fun i => (List.range n).flatMap (w2 i))).length = m * (n * 2) :=
      flatMap_range_length (n * 2)
        (fun i => (List.range n).flatMap (w2 i))
        (fun i => flatMap_range_length 2 (w2 i) (hw i) n) m
    have hbase : base + m * (n * 2)
        = (l1 ++ (List.range m).flatMap
            (fun i => (List.range n).flatMap (w2 i))).length := by
      rw [List.length_append, hflen, hb]
    have hinner := writeFrame_eq (w2 m) (hw m) n
      (l1 ++ (List.range m).flatMap (fun i => (List.range n).flatMap (w2 i)))
      rest (base + m * (n * 2)) hbase
    rw [hinner, List.flatMap_append]
    show l1 ++ (List.range m).flatMap (fun i => (List.range n).flatMap (w2 i))
        ++ (List.range n).flatMap (w2 m) ++ List.replicate rest 0
      = l1 ++ ((List.range m).flatMap (fun i => (List.range n).flatMap (w2 i))
          ++ [m].flatMap (fun i => (List.range n).flatMap (w2 i)))
          ++ List.replicate rest 0
    have hsingle : ([m] : List ℕ).flatMap
        (fun i => (List.range n).flatMap (w2 i))
      = (List.range n).flatMap (w2 m) ++ [] := rfl
    rw [hsingle]
    simp

theorem wavHeader_length (nc sr d : ℕ) : (wavHeader nc sr d).length = 44 := rfl

theorem writeBytes_cons_succ :
    ∀ (bs : List ℕ) (y : ℕ) (l : List ℕ) (k : ℕ),
      writeBytes (y :: l) (k + 1) bs = y :: writeBytes l k bs := by
  intro bs
  induction bs with
  | nil => intro y l k; rfl
  | cons v vs ih =>
    intro y l k
    show writeBytes ((y :: l).set (k + 1) v) (k + 1 + 1) vs
      = y :: writeBytes (l.set k v) (k + 1) vs
    rw [List.set_cons_succ]
    exact ih y (l.set k v) (k + 1)

theorem writeBytes_fill :
    ∀ (bs X : List ℕ),
      writeBytes (List.replicate bs.length 0 ++ X) 0 bs = bs ++ X := by
  intro bs
  induction bs with
  | nil => intro X; rfl
  | cons v vs ih =>
    intro X
    show writeBytes (((0 :: List.replicate vs.length 0) ++ X).set 0 v) 1 vs
      = v :: (vs ++ X)
    rw [List.cons_append, List.set_cons_zero, writeBytes_cons_succ]
    rw [ih X]

theorem writeMany_fill :
    ∀ (ws : List (ℕ × List ℕ)) (l1 : List ℕ) (rest : ℕ),
      contiguousFrom l1.length ws →
      writeMany (l1 ++ List.replicate ((ws.map (fun p => p.2.length)).sum + rest) 0)
          ws
        = l1 ++ ws.flatMap (fun p => p.2) ++ List.replicate rest 0 := by
  intro ws
  induction ws with
  | nil =>
    intro l1 rest _
    simp [writeMany]
  | cons p rest' ih =>
    intro l1 rest hc
    obtain ⟨off, bs⟩ := p
    obtain ⟨hoff, hc'⟩ := hc
    show writeMany
      (writeBytes (l1 ++ List.replicate
        ((((off, bs) :: rest').map (fun p => p.2.length)).sum + rest) 0) off bs)
      rest' = _
    have hsum : (((off, bs) :: rest').map (fun p => p.2.length)).sum + rest
        = bs.length + ((rest'.map (fun p => p.2.length)).sum + rest) := by
      simp [Nat.add_assoc]
    rw [hsum, List.replicate_add, hoff, writeBytes_start_right, writeBytes_fill]
    have hl1 : contiguousFrom (l1 ++ bs).length rest' := by
      rw [List.length_append]
      exact hc'
    have := ih (l1 ++ bs) rest hl1
    rw [List.append_assoc] at this
    rw [this]
    show l1 ++ bs ++ rest'.flatMap (fun p => p.2) ++ List.replicate rest 0
      = l1 ++ (bs ++ rest'.flatMap (fun p => p.2)) ++ List.replicate rest 0
    simp

theorem writeMany_fill0 (ws : List (ℕ × List ℕ)) (rest : ℕ)
    (hc : contiguousFrom 0 ws) :
    writeMany (List.replicate ((ws.map (fun p => p.2.length)).sum + rest) 0) ws
      = ws.flatMap (fun p => p.2) ++ List.replicate rest 0 := by
  have h := writeMany_fill ws [] rest hc
  simpa using h

/-- The thirteen header writes on the zeroed prefix of the buffer produce
exactly the standard header byte list, leaving the data region zeroed. -/
theorem header_writeMany_eq (nc sr d rest : ℕ) :
    writeMany (List.replicate (44 + rest) 0)
      [(0, strBytes "RIFF"), (4, bytes32 (36 + d)), (8, strBytes "WAVE"),
       (12, strBytes "fmt "), (16, bytes32 16), (20, bytes16 1),
       (22, bytes16 nc), (24, bytes32 sr), (28, bytes32 (sr * (nc * 2))),
       (32, bytes16 (nc * 2)), (34, bytes16 16), (36, strBytes "data"),
       (40, bytes32 d)]
      = wavHeader nc sr d ++ List.replicate rest 0 := by
  have hsum : (([(0, strBytes "RIFF"), (4, bytes32 (36 + d)),
      (8, strBytes "WAVE"), (12, strBytes "fmt "), (16, bytes32 16),
      (20, bytes16 1), (22, bytes16 nc), (24, bytes32 sr),
      (28, bytes32 (sr * (nc * 2))), (32, bytes16 (nc * 2)), (34, bytes16 16),
      (36, strBytes "data"), (40, bytes32 d)] :
        List (ℕ × List ℕ)).map (fun p => p.2.length)).sum = 44 := rfl
  have hc : contiguousFrom 0
      [(0, strBytes "RIFF"), (4, bytes32 (36 + d)), (8, strBytes "WAVE"),
       (12, strBytes "fmt "), (16, bytes32 16), (20, bytes16 1),
       (22, bytes16 nc), (24, bytes32 sr), (28, bytes32 (sr * (nc * 2))),
       (32, bytes16 (nc * 2)), (34, bytes16 16), (36, strBytes "data"),
       (40, bytes32 d)] := by
    refine ⟨rfl, rfl, rfl, rfl, rfl, rfl, rfl, rfl, rfl, rfl, rfl, rfl, rfl,
      trivial⟩
  have h := writeMany_fill0
    [(0, strBytes "RIFF"), (4, bytes32 (36 + d)), (8, strBytes "WAVE"),
     (12, strBytes "fmt "), (16, bytes32 16), (20, bytes16 1),
     (22, bytes16 nc), (24, bytes32 sr), (28, bytes32 (sr * (nc * 2))),
     (32, bytes16 (nc * 2)), (34, bytes16 16), (36, strBytes "data"),
     (40, bytes32 d)] rest hc
  rw [hsum] at h
  rw [h]
  show strBytes "RIFF" ++ (bytes32 (36 + d) ++ (strBytes "WAVE" ++
      (strBytes "fmt " ++ (bytes32 16 ++ (bytes16 1 ++ (bytes16 nc ++
      (bytes32 sr ++ (bytes32 (sr * (nc * 2)) ++ (bytes16 (nc * 2) ++
      (bytes16 16 ++ (strBytes "data" ++ (bytes32 d ++ [])))))))))))) ++
      List.replicate rest 0
    = wavHeader nc sr d ++ List.replicate rest 0
  unfold wavHeader
  simp

/-- C8: `audioBufferToWav` produces exactly the standard 44-byte RIFF/WAVE
header (PCM format tag 1, the buffer's channel count and sample rate, 16-bit
depth, little-endian fields) followed by the interleaved 16-bit signed
samples, each clamped to [-1, 1] before quantization; the total size is
`44 + frames * channels * 2` bytes. -/
theorem audioBufferToWav_spec (b : AudioBuffer) :
    audioBufferToWav b =
      wavHeader b.channels.length b.sampleRate
        (b.length * (b.channels.length * 2)) ++ wavData b ∧
    (audioBufferToWav b).length = 44 + b.length * b.channels.length * 2 := by
  have hchain : audioBufferToWav b
      = (List.range b.length).foldl
          (fun buf i =>
            (List.range b.channels.length).foldl
              (fun buf c =>
                writeBytes buf (44 + i * (b.channels.length * 2) + c * 2)
                  (bytes16I (quantize16 ((b.channels.getD c []).getD i 0))))
              buf)
          (writeMany
            (List.replicate (44 + b.length * (b.channels.length * 2)) 0)
            [(0, strBytes "RIFF"),
             (4, bytes32 (44 + b.length * (b.channels.length * 2) - 8)),
             (8, strBytes "WAVE"), (12, strBytes "fmt "), (16, bytes32 16),
             (20, bytes16 1), (22, bytes16 b.channels.length),
             (24, bytes32 b.sampleRate),
             (28, bytes32 (b.sampleRate * (b.channels.length * 2))),
             (32, bytes16 (b.channels.length * 2)), (34, bytes16 16),
             (36, strBytes "data"),
             (40, bytes32 (b.length * (b.channels.length * 2)))]) := rfl
  have h8 : 44 + b.length * (b.channels.length * 2) - 8
      = 36 + b.length * (b.channels.length * 2) := by omega
  have hmain : audioBufferToWav b =
      wavHeader b.channels.length b.sampleRate
        (b.length * (b.channels.length * 2)) ++ wavData b := by
    rw [hchain, h8, header_writeMany_eq b.channels.length b.sampleRate
      (b.length * (b.channels.length * 2)) (b.length * (b.channels.length * 2))]
    have hframes : (List.range b.length).foldl
        (fun buf i =>
          (List.range b.channels.length).foldl
            (fun buf c =>
              writeBytes buf (44 + i * (b.channels.length * 2) + c * 2)
                (bytes16I (quantize16 ((b.channels.getD c []).getD i 0))))
            buf)
        (wavHeader b.channels.length b.sampleRate
            (b.length * (b.channels.length * 2)) ++
          List.replicate (b.length * (b.channels.length * 2)) 0)
        = wavHeader b.channels.length b.sampleRate
            (b.length * (b.channels.length * 2)) ++ wavData b ++
          ([] : List ℕ) :=
      writeFrames_eq b.channels.length
        (fun i c => bytes16I (quantize16 ((b.channels.getD c []).getD i 0)))
        (fun _ _ => rfl) b.length
        (wavHeader b.channels.length b.sampleRate
          (b.length * (b.channels.length * 2))) 0 44
        (wavHeader_length b.channels.length b.sampleRate
          (b.length * (b.channels.length * 2))).symm
    rw [List.append_nil] at hframes
    exact hframes
  refine ⟨hmain, ?_⟩
  have hdata : (wavData b).length = b.length * (b.channels.length * 2) :=
    flatMap_range_length (b.channels.length * 2)
      (fun i => (List.range b.channels.length).flatMap
        (fun c => bytes16I (quantize16 ((b.channels.getD c []).getD i 0))))
      (fun i => flatMap_range_length 2
        (fun c => bytes16I (quantize16 ((b.channels.getD c []).getD i 0)))
        (fun _ => rfl) b.channels.length)
      b.length
  rw [hmain, List.length_append, wavHeader_length, hdata]
  ring

end FunButton
